import Mathlib

/-!
# Verification of the Burke Vision Lab qCSF Bayesian adaptive engine

Shallow embedding of the two engine variants found in the repository:

* the binary (Yes/No or nAFC) engine of `qcsf-engine.js`, whose `update`
  takes a boolean `detected` response, and
* the graded (6-orientation + "no target") engine of the unnamed module,
  whose `update` takes an integer angular distance (0..3, or -1 for "none").

The engine state (posterior over the hypothesis grid, precomputed
psychometric matrix, stimulus grid, frequency counters, trial counter and
history) is modelled by one structure `EngineState`, generic over an
ordered field `K`, so that the purely rational state transitions
(`gradedUpdate`, `binaryUpdate`) can be evaluated on concrete rational
states, while the transcendental parts (grid construction, psychometric
precomputation, expected-entropy stimulus selection) are developed over
the real numbers.
-/

namespace QCSF

/-- Graded response model kernel `GRADED_KERNEL = [0.70, 0.10, 0.04, 0.02]`:
probability mass assigned to angular distance `d` (0..3 orientation steps)
when the target is detected.  Source: `const GRADED_KERNEL`. -/
def gradedKernel (K : Type*) [DivisionRing K] : ℤ → K := fun d =>
  if d = 0 then 7/10 else if d = 1 then 1/10 else if d = 2 then 1/25 else 1/50

/-- Source: `GRADED_GUESS_RATE = 0.10`: probability of guessing an orientation when blind. -/
def gradedGuessRate (K : Type*) [DivisionRing K] : K := 1/10

/-- Source: `GRADED_LAPSE = 0.02`: lapse rate of the graded model. -/
def gradedLapse (K : Type*) [DivisionRing K] : K := 1/50

/-- Raw observation probability of a graded response under a hypothesis with
detection probability `psi`, mirroring the branch in the graded `update`:
`angularDistance` in 0..3 gives `det*K[d] + blind*(g/6)`, anything else is
treated as the "none" response with probability `psi*lam + blind*(1-g)`,
where `det = psi*(1-lam)` and `blind = 1-psi`. -/
def gradedPObsRaw {K : Type*} [Field K] (psi : K) (angularDistance : ℤ) : K :=
  let lam := gradedLapse K
  let g := gradedGuessRate K
  let g6 := g / 6
  let oneMinusG := 1 - g
  let det := psi * (1 - lam)
  let blind := 1 - psi
  if 0 ≤ angularDistance ∧ angularDistance ≤ 3 then
    det * gradedKernel K angularDistance + blind * g6
  else
    psi * lam + blind * oneMinusG

/-- Mixed observation probability of the graded `update`:
`(1 - mix) * pObsRaw + mix * uniformP` with `uniformP = 1/7`
(the source's robust mixing, uniform over the 7 raw outcomes). -/
def gradedPObs {K : Type*} [Field K] (mix psi : K) (angularDistance : ℤ) : K :=
  (1 - mix) * gradedPObsRaw psi angularDistance + mix * (1/7)

/-- Raw observation probability of a binary response: `detected ? pCH : 1 - pCH`
where `pCH` is the precomputed probability of a correct response. -/
def binaryPObsRaw {K : Type*} [Field K] (pCH : K) (detected : Bool) : K :=
  if detected then pCH else 1 - pCH

/-- Mixed observation probability of the binary `update`:
`(1 - robustLikelihoodMix) * pObsRaw + robustLikelihoodMix * 0.5`. -/
def binaryPObs {K : Type*} [Field K] (mix pCH : K) (detected : Bool) : K :=
  (1 - mix) * binaryPObsRaw pCH detected + mix * (1/2)

/-- Engine state shared by both variants.  `psi` is the precomputed
per-hypothesis row of `psiMatrix` (graded) or `pCorrectMatrix` (binary);
`stimGrid` holds `(freq, logContrast)` pairs; `freqCounts` models the
`freqTrialCounts` map as an insertion-ordered association list; `history`
records `(trial, stimIndex, response)` with a boolean response encoded as
1/0.  `mix` is `robustLikelihoodMix` and `sigmaB` is `boundarySigmaLogC`. -/
structure EngineState (K : Type*) where
  prior : List K
  psi : List (List K)
  paramGrid : List (K × K × K × K)
  stimGrid : List (K × K)
  freqCounts : List (K × ℕ)
  trialCount : ℕ
  history : List (ℕ × ℕ × ℤ)
  mix : K
  sigmaB : K
  deriving DecidableEq

/-- Source: `freqTrialCounts.set(freq, (freqTrialCounts.get(freq) || 0) + 1)`:
bump the counter of `freq` in the association list, appending a fresh
entry when the key is absent. -/
def bumpFreq {K : Type*} [DecidableEq K] : List (K × ℕ) → K → List (K × ℕ)
  | [], f => [(f, 1)]
  | (k, n) :: rest, f =>
    if k = f then (k, n + 1) :: rest else (k, n) :: bumpFreq rest f

/-- The graded `update(stimIndex, angularDistance)`: multiply every
hypothesis's mass by the mixed observation probability, renormalize when
the total is positive, then bump the frequency counter, the trial counter
and the history.  Mirrors the unnamed graded module's `update`. -/
def gradedUpdate {K : Type*} [Field K] [LinearOrder K] [DecidableEq K]
    (st : EngineState K) (stimIndex : ℕ) (angularDistance : ℤ) : EngineState K :=
  let mult := List.zipWith
    (fun p row => p * gradedPObs st.mix (row.getD stimIndex 0) angularDistance)
    st.prior st.psi
  let total := mult.sum
  let newPrior := if 0 < total then mult.map (· / total) else mult
  { st with
    prior := newPrior
    freqCounts := bumpFreq st.freqCounts (st.stimGrid.getD stimIndex (0, 0)).1
    trialCount := st.trialCount + 1
    history := st.history ++ [(st.trialCount + 1, stimIndex, angularDistance)] }

/-- The binary `update(stimIndex, detected)` of `qcsf-engine.js`; the boolean
response is recorded in the history as 1 (`true`) or 0 (`false`). -/
def binaryUpdate {K : Type*} [Field K] [LinearOrder K] [DecidableEq K]
    (st : EngineState K) (stimIndex : ℕ) (detected : Bool) : EngineState K :=
  let mult := List.zipWith
    (fun p row => p * binaryPObs st.mix (row.getD stimIndex 0) detected)
    st.prior st.psi
  let total := mult.sum
  let newPrior := if 0 < total then mult.map (· / total) else mult
  { st with
    prior := newPrior
    freqCounts := bumpFreq st.freqCounts (st.stimGrid.getD stimIndex (0, 0)).1
    trialCount := st.trialCount + 1
    history := st.history ++ [(st.trialCount + 1, stimIndex, if detected then 1 else 0)] }

/-- Run a sequence of graded update calls. -/
def applyGradedTrials {K : Type*} [Field K] [LinearOrder K] [DecidableEq K]
    (st : EngineState K) (trials : List (ℕ × ℤ)) : EngineState K :=
  trials.foldl (fun s t => gradedUpdate s t.1 t.2) st

/-- Run a sequence of binary update calls. -/
def applyBinaryTrials {K : Type*} [Field K] [LinearOrder K] [DecidableEq K]
    (st : EngineState K) (trials : List (ℕ × Bool)) : EngineState K :=
  trials.foldl (fun s t => binaryUpdate s t.1 t.2) st

/-- A valid posterior vector: every entry nonnegative, entries summing to 1. -/
def ValidPrior {K : Type*} [Field K] [LinearOrder K] (l : List K) : Prop :=
  (∀ x ∈ l, 0 ≤ x) ∧ l.sum = 1

/-- Every entry of the precomputed matrix lies in the clamp range
`[0.001, 0.999]` enforced by `_precompute`. -/
def ClampedMatrix {K : Type*} [Field K] [LinearOrder K] (m : List (List K)) : Prop :=
  ∀ row ∈ m, ∀ x ∈ row, 1/1000 ≤ x ∧ x ≤ 999/1000

/-- A graded response actually modelled by the response model:
angular distance 0..3 or the "none" sentinel -1. -/
def ModeledResponse (r : ℤ) : Prop := r = -1 ∨ (0 ≤ r ∧ r ≤ 3)

end QCSF

namespace QCSF

noncomputable section

/-- Source: `MAX_HUMAN_CUTOFF_CPD = 60`: empirical upper bound for high-contrast
human acuity, the physiological ceiling frequency used to prune the grid. -/
def MAX_HUMAN_CUTOFF_CPD : ℝ := 60

/-- Source: `logParabolaCSF(freq, g, f, b, d)` from the source: log-parabola CSF
with high-frequency truncation, with the defensive floors
`safeFreq = max(0.05, freq)` and `max(0.2, ·)` on `f`, `b`, `d`. -/
def logParabolaCSF (freq g f b d : ℝ) : ℝ :=
  let safeFreq := max 0.05 freq
  let logF := Real.logb 10 safeFreq
  let logPeak := Real.logb 10 (max 0.2 f)
  let delta := logF - logPeak
  let baseDrop := max 0.2 b * delta * delta
  let highFreqDrop := if delta > 0 then max 0.2 d * delta ^ 4 else 0
  g - baseDrop - highFreqDrop

/-- Source: `FREQ_BANDS`: frequency bands `(min, max, minTrials)` with minimum trial
guarantees for clinical coverage. -/
def FREQ_BANDS : List (ℝ × ℝ × ℕ) := [(0.5, 2, 8), (2, 6, 10), (6, 16, 8), (16, 30, 5)]

/-- The constructor's hypothesis-grid loop: Cartesian product of the four
candidate lists, keeping a combination only when its predicted
log-sensitivity at the 60 cpd ceiling is `≤ 0`. -/
def buildParamGrid (gains freqs bws truncs : List ℝ) : List (ℝ × ℝ × ℝ × ℝ) :=
  gains.bind fun g => freqs.bind fun f => bws.bind fun b =>
    truncs.filterMap fun d =>
      if logParabolaCSF MAX_HUMAN_CUTOFF_CPD g f b d ≤ 0 then some (g, f, b, d) else none

/-- The constructor's stimulus-grid loop: all `(freq, logContrast)` pairs. -/
def buildStimGrid (freqs logCs : List ℝ) : List (ℝ × ℝ) :=
  freqs.bind fun fr => logCs.map fun lc => (fr, lc)

/-- The merged configuration record (`{...DEFAULTS, ...options}`). -/
structure EngineConfig where
  numAFC : ℝ
  lapse : ℝ
  falseAlarmRate : ℝ
  psychometricSlope : ℝ
  peakGainValues : List ℝ
  peakFreqValues : List ℝ
  bandwidthValues : List ℝ
  truncationValues : List ℝ
  stimFreqs : List ℝ
  stimLogContrasts : List ℝ
  robustLikelihoodMix : ℝ
  boundarySigmaLogC : ℝ

/-- Source: `gamma = isYesNo ? falseAlarmRate : 1/numAFC` with `isYesNo = numAFC <= 1`. -/
def gammaOf (cfg : EngineConfig) : ℝ :=
  if cfg.numAFC ≤ 1 then cfg.falseAlarmRate else 1 / cfg.numAFC

/-- The clamp `Math.max(0.001, Math.min(0.999, pC))` of `_precompute`. -/
def clamp01 (x : ℝ) : ℝ := max 0.001 (min 0.999 x)

/-- The logistic psychometric function `1 / (1 + exp(-slope * x))`. -/
def psiLogistic (slope x : ℝ) : ℝ := 1 / (1 + Real.exp (-slope * x))

/-- One entry of the binary engine's `pCorrectMatrix`: clamped
`gamma + (1 - gamma - lapse) * psi(logSens - (-logContrast))`. -/
def pCorrectEntry (cfg : EngineConfig) (p : ℝ × ℝ × ℝ × ℝ) (s : ℝ × ℝ) : ℝ :=
  let logSens := logParabolaCSF s.1 p.1 p.2.1 p.2.2.1 p.2.2.2
  let x := logSens - (-s.2)
  let psi := psiLogistic cfg.psychometricSlope x
  clamp01 (gammaOf cfg + (1 - gammaOf cfg - cfg.lapse) * psi)

/-- The binary engine constructor: grids, uniform prior, `pCorrectMatrix`,
empty counters. -/
def mkEngine (cfg : EngineConfig) : EngineState ℝ :=
  let grid := buildParamGrid cfg.peakGainValues cfg.peakFreqValues
    cfg.bandwidthValues cfg.truncationValues
  let stims := buildStimGrid cfg.stimFreqs cfg.stimLogContrasts
  { prior := List.replicate grid.length ((1 : ℝ) / grid.length)
    psi := grid.map fun p => stims.map fun s => pCorrectEntry cfg p s
    paramGrid := grid
    stimGrid := stims
    freqCounts := []
    trialCount := 0
    history := []
    mix := cfg.robustLikelihoodMix
    sigmaB := cfg.boundarySigmaLogC }

/-- Source: `getExpectedEstimate`: posterior-weighted means, peak frequency averaged
in log10 space and exponentiated. -/
def getExpectedEstimate (st : EngineState ℝ) : ℝ × ℝ × ℝ × ℝ :=
  let gM := (List.zipWith (fun w p => w * p.1) st.prior st.paramGrid).sum
  let fM := (List.zipWith (fun w p => w * Real.logb 10 p.2.1) st.prior st.paramGrid).sum
  let bM := (List.zipWith (fun w p => w * p.2.2.1) st.prior st.paramGrid).sum
  let dM := (List.zipWith (fun w p => w * p.2.2.2) st.prior st.paramGrid).sum
  (gM, (10 : ℝ) ^ fM, bM, dM)

/-- Source: `evaluateCSF(freq, params)` on explicit parameters. -/
def evaluateCSF (freq : ℝ) (params : ℝ × ℝ × ℝ × ℝ) : ℝ :=
  logParabolaCSF freq params.1 params.2.1 params.2.2.1 params.2.2.2

/-- Source: `_getBand(freq)`: first band with `freq >= min && freq < max`. -/
def getBand (freq : ℝ) : Option (ℝ × ℝ × ℕ) :=
  FREQ_BANDS.find? fun b => decide (b.1 ≤ freq ∧ freq < b.2.1)

/-- Source: `_getBandCounts` for one band: total trials at frequencies inside it. -/
def bandTrialCount {K : Type*} [LinearOrder K] (counts : List (K × ℕ)) (band : K × K × ℕ) : ℕ :=
  (counts.map fun e => if band.1 ≤ e.1 ∧ e.1 < band.2.1 then e.2 else 0).sum

/-- Source: `freqTrialCounts.get(freq) || 0`. -/
def freqCountOf {K : Type*} [DecidableEq K] : List (K × ℕ) → K → ℕ
  | [], _ => 0
  | (k, n) :: rest, f => if k = f then n else freqCountOf rest f

/-- The numerical guard `1e-30` used in the selection loops. -/
def epsGuard : ℝ := 1e-30

/-- The marginal probability of a correct response at stimulus `s`:
`sum_h pCorrectMatrix[h][s] * prior[h]`. -/
def pCorrMarginal (st : EngineState ℝ) (s : ℕ) : ℝ :=
  (List.zipWith (fun ph row => row.getD s 0 * ph) st.prior st.psi).sum

/-- One accumulated entropy term `-n log2 n`, guarded by `n > 1e-30`. -/
def entTerm (n : ℝ) : ℝ := if n > epsGuard then -(n * Real.logb 2 n) else 0

/-- Source: `hC`: posterior entropy conditional on "correct", with the source's
guards (`ph < 1e-30` skip, `pCorr > 1e-30` gate). -/
def hCorrect (st : EngineState ℝ) (s : ℕ) (pCorr : ℝ) : ℝ :=
  (List.zipWith (fun ph row =>
    if ph < epsGuard then 0
    else if pCorr > epsGuard then entTerm (ph * row.getD s 0 / pCorr) else 0)
    st.prior st.psi).sum

/-- Source: `hI`: posterior entropy conditional on "incorrect". -/
def hIncorrect (st : EngineState ℝ) (s : ℕ) (pInc : ℝ) : ℝ :=
  (List.zipWith (fun ph row =>
    if ph < epsGuard then 0
    else if pInc > epsGuard then entTerm (ph * (1 - row.getD s 0) / pInc) else 0)
    st.prior st.psi).sum

/-- Source: `baseEntropy = pCorr * hC + pInc * hI` of the binary selection loop. -/
def baseEntropyAt (st : EngineState ℝ) (s : ℕ) : ℝ :=
  let pCorr := pCorrMarginal st s
  let pInc := 1 - pCorr
  pCorr * hCorrect st s pCorr + pInc * hIncorrect st s pInc

/-- Source: `boundaryWeight`: Gaussian bump around the posterior-predicted
threshold contrast at this stimulus's frequency. -/
def boundaryWeight (st : EngineState ℝ) (stim : ℝ × ℝ) : ℝ :=
  let pHat := getExpectedEstimate st
  let predictedBoundaryLogC := -evaluateCSF stim.1 pHat
  let boundaryDelta := stim.2 - predictedBoundaryLogC
  Real.exp (-(1/2) * (boundaryDelta / st.sigmaB) ^ 2)

/-- Source: `freqWeight`: smooth clinical importance bonus centred at 4 cpd
(`LOG4 = log10 4`). -/
def freqWeight (freq : ℝ) : ℝ :=
  1 + 1.5 * Real.exp (-(1/2) * ((Real.logb 10 freq - Real.logb 10 4) / 0.55) ^ 2)

/-- Source: `diversityPenalty = 1 + freqCount * 1.5`. -/
def diversityPenalty (st : EngineState ℝ) (freq : ℝ) : ℝ :=
  1 + (freqCountOf st.freqCounts freq : ℝ) * 1.5

/-- Source: `coverageBoost`: 3 when the stimulus's band exists and is below its
minimum-trial quota, else 1. -/
def coverageBoost (st : EngineState ℝ) (freq : ℝ) : ℝ :=
  match getBand freq with
  | some band => if bandTrialCount st.freqCounts band < band.2.2 then 3 else 1
  | none => 1

/-- The selection score
`ee[s] = baseEntropy * diversityPenalty / ((1+boundaryWeight) * freqWeight * coverageBoost)`;
lower is preferred. -/
def eeAt (st : EngineState ℝ) (s : ℕ) : ℝ :=
  let stim := st.stimGrid.getD s (0, 0)
  baseEntropyAt st s * diversityPenalty st stim.1 /
    ((1 + boundaryWeight st stim) * freqWeight stim.1 * coverageBoost st stim.1)

/-- All selection scores, indexed like the stimulus grid. -/
def eeList (st : EngineState ℝ) : List ℝ :=
  (List.range st.stimGrid.length).map (eeAt st)

/-- The deterministic argmin scan `bestIdx = 0; for s ... if (ee[s] < ee[bestIdx])`.
Folding from index 0 is equivalent to the source's start at 1 because the
step at `s = 0` compares `ee[0]` with itself under a strict `<`. -/
def bestIndex (ee : List ℝ) : ℕ :=
  (List.range ee.length).foldl (fun best s => if ee.getD s 0 < ee.getD best 0 then s else best) 0

/-- The candidate returned by `selectStimulus`. -/
structure StimChoice where
  frequency : ℝ
  contrast : ℝ
  logContrast : ℝ
  stimIndex : ℕ

/-- Source: `selectStimulus()`: pick the stimulus with the lowest score and return
its frequency, `contrast = 10^logContrast`, log-contrast and index. -/
def selectStimulus (st : EngineState ℝ) : StimChoice :=
  let best := bestIndex (eeList st)
  let stim := st.stimGrid.getD best (0, 0)
  { frequency := stim.1
    contrast := (10 : ℝ) ^ stim.2
    logContrast := stim.2
    stimIndex := best }

/-- One trial of the select-then-update loop with an "I don't see it"
response: `update(selectStimulus().stimIndex, false)`. -/
def selectThenUpdateFalse (st : EngineState ℝ) : EngineState ℝ :=
  binaryUpdate st (selectStimulus st).stimIndex false

/-- Source: `n` trials of the select-then-update loop with all-false responses. -/
def runFalse (st : EngineState ℝ) : ℕ → EngineState ℝ
  | 0 => st
  | n + 1 => selectThenUpdateFalse (runFalse st n)

end

end QCSF

namespace QCSF

/-- A small concrete rational engine state (two hypotheses, one stimulus,
clamped matrix entries, uniform posterior) used to instantiate the
invariant theorems. -/
def stBasic : EngineState ℚ :=
  { prior := [1/2, 1/2]
    psi := [[1/2], [1/4]]
    paramGrid := [(1, 1, 1, 1), (2, 1, 1, 1)]
    stimGrid := [(2, -1)]
    freqCounts := []
    trialCount := 0
    history := []
    mix := 3/100
    sigmaB := 1/5 }

/-- A concrete rational engine state whose two hypotheses sit at the two
clamp extremes, so that any update moves the posterior. -/
def stSplit : EngineState ℚ :=
  { prior := [1/2, 1/2]
    psi := [[1/1000], [999/1000]]
    paramGrid := [(1, 1, 1, 1), (2, 1, 1, 1)]
    stimGrid := [(2, -1)]
    freqCounts := []
    trialCount := 0
    history := []
    mix := 3/100
    sigmaB := 1/5 }

/-- A concrete rational engine state with an all-zero posterior vector, on
which the likelihood multiply produces total mass 0. -/
def stZero : EngineState ℚ :=
  { prior := [0, 0]
    psi := [[1/2], [1/4]]
    paramGrid := [(1, 1, 1, 1), (2, 1, 1, 1)]
    stimGrid := [(2, -1)]
    freqCounts := []
    trialCount := 0
    history := []
    mix := 3/100
    sigmaB := 1/5 }

noncomputable section

/-- A configuration accepted by the binary engine constructor (Yes/No mode
with zero guess and lapse rates, a steep psychometric slope, three peak-gain
hypotheses at peak frequency 60 and four stimuli at 4 and 60 cpd).  Every
field is an ordinary constructor option of the source engine. -/
def cexConfig : EngineConfig :=
  { numAFC := 1
    lapse := 0
    falseAlarmRate := 0
    psychometricSlope := 1000000
    peakGainValues := [-0.1, -0.14, -0.145]
    peakFreqValues := [60]
    bandwidthValues := [0.2]
    truncationValues := [1]
    stimFreqs := [4, 60]
    stimLogContrasts := [0.12, 0.142]
    robustLikelihoodMix := 0.03
    boundarySigmaLogC := 0.2 }

/-- The engine state reached at construction (trial 0) under `cexConfig`. -/
def cexState : EngineState ℝ := mkEngine cexConfig

/-- A configuration whose single stimulus has log-contrast 0 (a value the
default list `linspace(-3.0, 0.0, 30)` also contains as its endpoint). -/
def unitContrastConfig : EngineConfig :=
  { numAFC := 5
    lapse := 0.04
    falseAlarmRate := 0.01
    psychometricSlope := 3.5
    peakGainValues := [-1]
    peakFreqValues := [60]
    bandwidthValues := [1]
    truncationValues := [1]
    stimFreqs := [4]
    stimLogContrasts := [0]
    robustLikelihoodMix := 0.03
    boundarySigmaLogC := 0.2 }

/-- The engine state at construction under `unitContrastConfig`. -/
def unitState : EngineState ℝ := mkEngine unitContrastConfig

end

end QCSF

namespace QCSF

/-- Auxiliary: `getD` through `map (· / t)`. -/
theorem getD_map_div {K : Type*} [DivisionRing K] (l : List K) (t : K) :
    ∀ n : ℕ, (l.map (· / t)).getD n 0 = l.getD n 0 / t := by
  induction l with
  | nil => intro n; simp
  | cons a l ih =>
    intro n
    cases n with
    | zero => simp
    | succ m => simpa using ih m

/-- Auxiliary: `getD` of a `zipWith` at an in-range index. -/
theorem getD_zipWith {α β γ : Type*} (f : α → β → γ) (da : α) (db : β) (dc : γ) :
    ∀ (ps : List α) (qs : List β) (n : ℕ), n < ps.length → n < qs.length →
      (List.zipWith f ps qs).getD n dc = f (ps.getD n da) (qs.getD n db) := by
  intro ps
  induction ps with
  | nil => intro qs n h; simp at h
  | cons p ps ih =>
    intro qs n hp hq
    cases qs with
    | nil => simp at hq
    | cons q qs =>
      cases n with
      | zero => simp
      | succ m =>
        simp only [List.zipWith_cons_cons, List.getD_cons_succ]
        exact ih qs m (Nat.lt_of_succ_lt_succ hp) (Nat.lt_of_succ_lt_succ hq)

/-- Auxiliary: sum of a list mapped through division. -/
theorem sum_map_div {K : Type*} [DivisionRing K] (l : List K) (t : K) :
    (l.map (· / t)).sum = l.sum / t := by
  induction l with
  | nil => simp
  | cons a l ih => simp [ih, add_div]

/-- Auxiliary: members of a pointwise-nonnegative `zipWith` are nonnegative. -/
theorem mem_zipWith_nonneg {K : Type*} [LinearOrderedField K]
    (f : K → List K → K) :
    ∀ (ps : List K) (qs : List (List K)),
      (∀ p ∈ ps, ∀ q ∈ qs, 0 ≤ f p q) → ∀ x ∈ List.zipWith f ps qs, 0 ≤ x := by
  intro ps
  induction ps with
  | nil => intro qs _ x hx; simp at hx
  | cons p ps ih =>
    intro qs h x hx
    cases qs with
    | nil => simp at hx
    | cons q qs =>
      rcases List.mem_cons.1 hx with hx | hx
      · exact hx ▸ h p (List.mem_cons_self p ps) q (List.mem_cons_self q qs)
      · exact ih qs (fun a ha b hb => h a (List.mem_cons_of_mem p ha) b (List.mem_cons_of_mem q hb)) x hx

/-- Auxiliary: a pointwise lower bound `p * c ≤ f p q` gives a lower bound
on the sum of a `zipWith`. -/
theorem le_sum_zipWith {K : Type*} [LinearOrderedField K]
    (c : K) (f : K → List K → K) :
    ∀ (ps : List K) (qs : List (List K)), ps.length ≤ qs.length →
      (∀ p ∈ ps, 0 ≤ p) → (∀ p ∈ ps, ∀ q ∈ qs, p * c ≤ f p q) →
      c * ps.sum ≤ (List.zipWith f ps qs).sum := by
  intro ps
  induction ps with
  | nil => intro qs _ _ _; simp
  | cons p ps ih =>
    intro qs hlen hpos hle
    cases qs with
    | nil => simp at hlen
    | cons q qs =>
      simp only [List.zipWith_cons_cons, List.sum_cons, mul_add]
      have h1 : p * c ≤ f p q :=
        hle p (List.mem_cons_self p ps) q (List.mem_cons_self q qs)
      have h2 : c * ps.sum ≤ (List.zipWith f ps qs).sum :=
        ih qs (Nat.le_of_succ_le_succ hlen)
          (fun a ha => hpos a (List.mem_cons_of_mem p ha))
          (fun a ha b hb => hle a (List.mem_cons_of_mem p ha) b (List.mem_cons_of_mem q hb))
      calc c * p + c * ps.sum ≤ f p q + (List.zipWith f ps qs).sum := by
            exact add_le_add (by linarith [h1]) h2

/-- Auxiliary: a clamped matrix row entry fetched with defaults is in `[0,1]`. -/
theorem clamped_entry_bounds {K : Type*} [LinearOrderedField K]
    {m : List (List K)} (hc : ClampedMatrix m) {row : List K} (hrow : row ∈ m)
    {i : ℕ} (hi : i < row.length) :
    1/1000 ≤ row.getD i 0 ∧ row.getD i 0 ≤ 999/1000 := by
  have hmem : row.getD i 0 ∈ row := by
    rw [List.getD_eq_getElem row 0 hi]
    exact List.getElem_mem hi
  exact hc row hrow _ hmem

/-- Auxiliary: the graded raw observation probability is at least `1/60`
for any response value whenever `psi ∈ [0,1]`. -/
theorem gradedPObsRaw_lb {K : Type*} [LinearOrderedField K]
    (psi : K) (h0 : 0 ≤ psi) (h1 : psi ≤ 1) (r : ℤ) :
    1/60 ≤ gradedPObsRaw psi r := by
  unfold gradedPObsRaw gradedKernel gradedLapse gradedGuessRate
  split_ifs <;> nlinarith

/-- Auxiliary: the mixed graded observation probability is at least `1/60`. -/
theorem gradedPObs_lb {K : Type*} [LinearOrderedField K]
    (mix psi : K) (hm0 : 0 ≤ mix) (hm1 : mix ≤ 1) (h0 : 0 ≤ psi) (h1 : psi ≤ 1) (r : ℤ) :
    1/60 ≤ gradedPObs mix psi r := by
  have hraw := gradedPObsRaw_lb psi h0 h1 r
  unfold gradedPObs
  nlinarith

/-- Auxiliary: the binary raw observation probability is at least `1/1000`
when `pCH` is inside the clamp range. -/
theorem binaryPObsRaw_lb {K : Type*} [LinearOrderedField K]
    (pCH : K) (h0 : 1/1000 ≤ pCH) (h1 : pCH ≤ 999/1000) (d : Bool) :
    1/1000 ≤ binaryPObsRaw pCH d := by
  unfold binaryPObsRaw
  split_ifs <;> nlinarith

/-- Auxiliary: the mixed binary observation probability is at least `1/1000`. -/
theorem binaryPObs_lb {K : Type*} [LinearOrderedField K]
    (mix pCH : K) (hm0 : 0 ≤ mix) (hm1 : mix ≤ 1)
    (h0 : 1/1000 ≤ pCH) (h1 : pCH ≤ 999/1000) (d : Bool) :
    1/1000 ≤ binaryPObs mix pCH d := by
  have hraw := binaryPObsRaw_lb pCH h0 h1 d
  unfold binaryPObs
  nlinarith

end QCSF

namespace QCSF

/-- Auxiliary: one graded update preserves posterior validity (and length). -/
theorem gradedUpdate_preserves {K : Type*} [LinearOrderedField K]
    (st : EngineState K) (i : ℕ) (r : ℤ)
    (hv : ValidPrior st.prior) (hc : ClampedMatrix st.psi)
    (hl : st.prior.length = st.psi.length)
    (hm : 0 ≤ st.mix ∧ st.mix ≤ 1)
    (hi : ∀ row ∈ st.psi, i < row.length) :
    ValidPrior (gradedUpdate st i r).prior ∧
      (gradedUpdate st i r).prior.length = st.prior.length := by
  have hobs : ∀ row ∈ st.psi, 1/60 ≤ gradedPObs st.mix (row.getD i 0) r := by
    intro row hrow
    have hb := clamped_entry_bounds hc hrow (hi row hrow)
    exact gradedPObs_lb st.mix _ hm.1 hm.2 (by linarith [hb.1]) (by linarith [hb.2]) r
  have hterm : ∀ p ∈ st.prior, ∀ row ∈ st.psi,
      p * (1/60 : K) ≤ p * gradedPObs st.mix (row.getD i 0) r := by
    intro p hp row hrow
    exact mul_le_mul_of_nonneg_left (hobs row hrow) (hv.1 p hp)
  have htot : 0 < (List.zipWith
      (fun p row => p * gradedPObs st.mix (row.getD i 0) r) st.prior st.psi).sum := by
    have := le_sum_zipWith (1/60 : K)
      (fun p row => p * gradedPObs st.mix (row.getD i 0) r)
      st.prior st.psi (le_of_eq hl) hv.1 hterm
    rw [hv.2] at this
    linarith
  have hnn : ∀ x ∈ List.zipWith
      (fun p row => p * gradedPObs st.mix (row.getD i 0) r) st.prior st.psi, 0 ≤ x := by
    apply mem_zipWith_nonneg
    intro p hp row hrow
    exact mul_nonneg (hv.1 p hp) (by linarith [hobs row hrow])
  constructor
  · constructor
    · intro x hx
      simp only [gradedUpdate, if_pos htot] at hx
      rcases List.mem_map.1 hx with ⟨y, hy, rfl⟩
      exact div_nonneg (hnn y hy) (le_of_lt htot)
    · simp only [gradedUpdate, if_pos htot]
      rw [sum_map_div, div_self (ne_of_gt htot)]
  · simp only [gradedUpdate, if_pos htot, List.length_map, List.length_zipWith]
    rw [hl, min_self]

end QCSF

namespace QCSF

/-- Auxiliary: one binary update preserves posterior validity (and length). -/
theorem binaryUpdate_preserves {K : Type*} [LinearOrderedField K]
    (st : EngineState K) (i : ℕ) (d : Bool)
    (hv : ValidPrior st.prior) (hc : ClampedMatrix st.psi)
    (hl : st.prior.length = st.psi.length)
    (hm : 0 ≤ st.mix ∧ st.mix ≤ 1)
    (hi : ∀ row ∈ st.psi, i < row.length) :
    ValidPrior (binaryUpdate st i d).prior ∧
      (binaryUpdate st i d).prior.length = st.prior.length := by
  have hobs : ∀ row ∈ st.psi, 1/1000 ≤ binaryPObs st.mix (row.getD i 0) d := by
    intro row hrow
    have hb := clamped_entry_bounds hc hrow (hi row hrow)
    exact binaryPObs_lb st.mix _ hm.1 hm.2 hb.1 hb.2 d
  have hterm : ∀ p ∈ st.prior, ∀ row ∈ st.psi,
      p * (1/1000 : K) ≤ p * binaryPObs st.mix (row.getD i 0) d := by
    intro p hp row hrow
    exact mul_le_mul_of_nonneg_left (hobs row hrow) (hv.1 p hp)
  have htot : 0 < (List.zipWith
      (fun p row => p * binaryPObs st.mix (row.getD i 0) d) st.prior st.psi).sum := by
    have := le_sum_zipWith (1/1000 : K)
      (fun p row => p * binaryPObs st.mix (row.getD i 0) d)
      st.prior st.psi (le_of_eq hl) hv.1 hterm
    rw [hv.2] at this
    linarith
  have hnn : ∀ x ∈ List.zipWith
      (fun p row => p * binaryPObs st.mix (row.getD i 0) d) st.prior st.psi, 0 ≤ x := by
    apply mem_zipWith_nonneg
    intro p hp row hrow
    exact mul_nonneg (hv.1 p hp) (by linarith [hobs row hrow])
  constructor
  · constructor
    · intro x hx
      simp only [binaryUpdate, if_pos htot] at hx
      rcases List.mem_map.1 hx with ⟨y, hy, rfl⟩
      exact div_nonneg (hnn y hy) (le_of_lt htot)
    · simp only [binaryUpdate, if_pos htot]
      rw [sum_map_div, div_self (ne_of_gt htot)]
  · simp only [binaryUpdate, if_pos htot, List.length_map, List.length_zipWith]
    rw [hl, min_self]

end QCSF

namespace QCSF

/-- Claim **C1** — Normalization invariant: for both engine variants, starting
from a valid posterior (nonnegative entries summing to 1), with the
precomputed matrix inside its `[0.001, 0.999]` clamp range, a robust-mixing
fraction in `[0,1]`, valid stimulus indices and modelled responses, after
any sequence of `update` calls every posterior entry is `≥ 0` and the
entries sum to exactly 1 (hence to 1 within any tolerance).  Since the
trial lists are arbitrary, the invariant holds after every prefix, i.e.
after each update. -/
theorem c1_normalization_invariant {K : Type*} [LinearOrderedField K]
    (stG stB : EngineState K) (trialsG : List (ℕ × ℤ)) (trialsB : List (ℕ × Bool))
    (hGv : ValidPrior stG.prior) (hGc : ClampedMatrix stG.psi)
    (hGl : stG.prior.length = stG.psi.length)
    (hGm : 0 ≤ stG.mix ∧ stG.mix ≤ 1)
    (hGi : ∀ t ∈ trialsG, ∀ row ∈ stG.psi, t.1 < row.length)
    (hGr : ∀ t ∈ trialsG, ModeledResponse t.2)
    (hBv : ValidPrior stB.prior) (hBc : ClampedMatrix stB.psi)
    (hBl : stB.prior.length = stB.psi.length)
    (hBm : 0 ≤ stB.mix ∧ stB.mix ≤ 1)
    (hBi : ∀ t ∈ trialsB, ∀ row ∈ stB.psi, t.1 < row.length) :
    ValidPrior (applyGradedTrials stG trialsG).prior ∧
      ValidPrior (applyBinaryTrials stB trialsB).prior := by
  constructor
  · clear hGr
    induction trialsG generalizing stG with
    | nil => exact hGv
    | cons t ts ih =>
      have step := gradedUpdate_preserves stG t.1 t.2 hGv hGc hGl hGm
        (hGi t (List.mem_cons_self t ts))
      have hpsi : (gradedUpdate stG t.1 t.2).psi = stG.psi := rfl
      have hmix : (gradedUpdate stG t.1 t.2).mix = stG.mix := rfl
      exact ih (gradedUpdate stG t.1 t.2) step.1 (hpsi ▸ hGc)
        (by rw [step.2, hpsi, hGl]) (by rw [hmix]; exact hGm)
        (fun u hu => hpsi ▸ hGi u (List.mem_cons_of_mem t hu))
  · induction trialsB generalizing stB with
    | nil => exact hBv
    | cons t ts ih =>
      have step := binaryUpdate_preserves stB t.1 t.2 hBv hBc hBl hBm
        (hBi t (List.mem_cons_self t ts))
      have hpsi : (binaryUpdate stB t.1 t.2).psi = stB.psi := rfl
      have hmix : (binaryUpdate stB t.1 t.2).mix = stB.mix := rfl
      exact ih (binaryUpdate stB t.1 t.2) step.1 (hpsi ▸ hBc)
        (by rw [step.2, hpsi, hBl]) (by rw [hmix]; exact hBm)
        (fun u hu => hpsi ▸ hBi u (List.mem_cons_of_mem t hu))

/-- Witness for C1 at a concrete rational state and concrete trial lists. -/
theorem c1_normalization_invariant_witness :
    ValidPrior (applyGradedTrials stBasic [(0, 2), (0, -1)]).prior ∧
      ValidPrior (applyBinaryTrials stBasic [(0, true), (0, false)]).prior := by
  apply c1_normalization_invariant stBasic stBasic [(0, 2), (0, -1)] [(0, true), (0, false)]
  · exact ⟨by norm_num [stBasic], by norm_num [stBasic]⟩
  · norm_num [ClampedMatrix, stBasic]
  · norm_num [stBasic]
  · exact ⟨by norm_num [stBasic], by norm_num [stBasic]⟩
  · norm_num [stBasic]
  · norm_num [ModeledResponse]
  · exact ⟨by norm_num [stBasic], by norm_num [stBasic]⟩
  · norm_num [ClampedMatrix, stBasic]
  · norm_num [stBasic]
  · exact ⟨by norm_num [stBasic], by norm_num [stBasic]⟩
  · norm_num [stBasic]

end QCSF

namespace QCSF

/-- Claim **C2** — counterexample: the claim says an unmodelled response (graded
mode, the integer 7 outside `{-1,0,1,2,3}`) is rejected, leaving all engine
state unchanged and surfacing an error.  In fact `update(0, 7)` at the
concrete state `stSplit` increments the trial counter and changes the
posterior: the out-of-range response is silently treated as the "none"
branch and the update proceeds. -/
theorem c2_counterexample :
    (gradedUpdate stSplit 0 7).trialCount ≠ stSplit.trialCount ∧
      (gradedUpdate stSplit 0 7).prior ≠ stSplit.prior := by
  constructor
  · simp [gradedUpdate, stSplit]
  · norm_num [gradedUpdate, stSplit, gradedPObs, gradedPObsRaw, gradedLapse,
      gradedGuessRate, gradedKernel]

/-- Claim **C2** (amended) — a graded response outside `{0,1,2,3}` is not
rejected: the update treats it exactly like the modelled "none" response
`-1` (same posterior, same trial counter, same frequency counters), so the
caller's contract violation is swallowed rather than surfaced. -/
theorem c2_amended {K : Type*} [LinearOrderedField K]
    (st : EngineState K) (i : ℕ) (r : ℤ) (h : ¬(0 ≤ r ∧ r ≤ 3)) :
    (gradedUpdate st i r).prior = (gradedUpdate st i (-1)).prior ∧
      (gradedUpdate st i r).trialCount = (gradedUpdate st i (-1)).trialCount ∧
      (gradedUpdate st i r).freqCounts = (gradedUpdate st i (-1)).freqCounts := by
  have hr : ∀ psi : K, gradedPObsRaw psi r = gradedPObsRaw psi (-1) := by
    intro psi
    unfold gradedPObsRaw
    rw [if_neg h, if_neg (by omega)]
  exact ⟨by simp only [gradedUpdate, gradedPObs, hr], rfl, rfl⟩

/-- Witness for the amended C2 at the concrete state `stSplit`, response 7. -/
theorem c2_amended_witness :
    ¬((0:ℤ) ≤ 7 ∧ (7:ℤ) ≤ 3) ∧
      (gradedUpdate stSplit 0 7).prior = (gradedUpdate stSplit 0 (-1)).prior :=
  ⟨by omega, (c2_amended stSplit 0 7 (by omega)).1⟩

/-- Claim **C3** — counterexample: at the concrete state `stZero` the
pre-normalization total is `≤ 0`; renormalization is indeed skipped, but no
fatal error is signalled: the update returns normally with the trial
counter incremented, the history appended, the frequency counter bumped and
the posterior left with total mass 0 — the engine silently continues
exactly as on a normal return. -/
theorem c3_counterexample :
    (List.zipWith (fun p row => p * gradedPObs stZero.mix (row.getD 0 0) 0)
        stZero.prior stZero.psi).sum ≤ 0 ∧
      (gradedUpdate stZero 0 0).trialCount = stZero.trialCount + 1 ∧
      (gradedUpdate stZero 0 0).history =
        stZero.history ++ [(stZero.trialCount + 1, 0, 0)] ∧
      (gradedUpdate stZero 0 0).freqCounts = bumpFreq stZero.freqCounts 2 ∧
      (gradedUpdate stZero 0 0).prior.sum = 0 := by
  refine ⟨?_, rfl, rfl, rfl, ?_⟩
  · norm_num [stZero]
  · norm_num [gradedUpdate, stZero, gradedPObs, gradedPObsRaw, gradedLapse,
      gradedGuessRate, gradedKernel]

/-- Claim **C3** (amended) — in both variants, when the pre-normalization total
is `≤ 0` the renormalization is skipped but nothing is signalled: the
update continues with the normal side effects (unnormalized multiplied
posterior, trial counter incremented, history appended, frequency counter
bumped), indistinguishable in kind from a normal return. -/
theorem c3_amended {K : Type*} [LinearOrderedField K]
    (st : EngineState K) (i : ℕ) (r : ℤ) (d : Bool)
    (hG : (List.zipWith (fun p row => p * gradedPObs st.mix (row.getD i 0) r)
        st.prior st.psi).sum ≤ 0)
    (hB : (List.zipWith (fun p row => p * binaryPObs st.mix (row.getD i 0) d)
        st.prior st.psi).sum ≤ 0) :
    (gradedUpdate st i r).prior =
        List.zipWith (fun p row => p * gradedPObs st.mix (row.getD i 0) r)
          st.prior st.psi ∧
      (gradedUpdate st i r).trialCount = st.trialCount + 1 ∧
      (gradedUpdate st i r).history = st.history ++ [(st.trialCount + 1, i, r)] ∧
      (gradedUpdate st i r).freqCounts =
        bumpFreq st.freqCounts (st.stimGrid.getD i (0, 0)).1 ∧
      (binaryUpdate st i d).prior =
        List.zipWith (fun p row => p * binaryPObs st.mix (row.getD i 0) d)
          st.prior st.psi ∧
      (binaryUpdate st i d).trialCount = st.trialCount + 1 := by
  refine ⟨?_, rfl, rfl, rfl, ?_, rfl⟩
  · simp only [gradedUpdate, if_neg (not_lt.2 hG)]
  · simp only [binaryUpdate, if_neg (not_lt.2 hB)]

/-- Witness for the amended C3 at the concrete all-zero-posterior state. -/
theorem c3_amended_witness :
    (List.zipWith (fun p row => p * gradedPObs stZero.mix (row.getD 0 0) 0)
        stZero.prior stZero.psi).sum ≤ 0 ∧
      (List.zipWith (fun p row => p * binaryPObs stZero.mix (row.getD 0 0) false)
        stZero.prior stZero.psi).sum ≤ 0 ∧
      (gradedUpdate stZero 0 0).prior =
        List.zipWith (fun p row => p * gradedPObs stZero.mix (row.getD 0 0) 0)
          stZero.prior stZero.psi := by
  have hG : (List.zipWith (fun p row => p * gradedPObs stZero.mix (row.getD 0 0) 0)
      stZero.prior stZero.psi).sum ≤ 0 := by norm_num [stZero]
  have hB : (List.zipWith (fun p row => p * binaryPObs stZero.mix (row.getD 0 0) false)
      stZero.prior stZero.psi).sum ≤ 0 := by norm_num [stZero]
  exact ⟨hG, hB, (c3_amended stZero 0 0 false hG hB).1⟩

/-- Claim **C5** — counterexample: the observation probability actually
multiplied in by the graded update mixes with `1/7` (uniform over the 7 raw
response alternatives), not with `1/5` as the claim (one over the 5 outcome
classes) states: at `mix = 0.03`, `psi = 1/2`, distance 0 the two values
differ. -/
theorem c5_counterexample :
    gradedPObs ((3:ℚ)/100) (1/2) 0 =
        (1 - 3/100) * gradedPObsRaw ((1:ℚ)/2) 0 + (3/100) * (1/7) ∧
      gradedPObs ((3:ℚ)/100) (1/2) 0 ≠
        (1 - 3/100) * gradedPObsRaw ((1:ℚ)/2) 0 + (3/100) * (1/5) := by
  constructor
  · rfl
  · norm_num [gradedPObs, gradedPObsRaw, gradedLapse, gradedGuessRate, gradedKernel]

/-- Claim **C5** (amended) — in both variants the posterior mass of each
hypothesis is multiplied by `(1-mix)*pObsRaw + mix*pUniform`, where
`pUniform` is uniform over the raw response alternatives: `1/2` in binary
mode and `1/7` in graded mode (6 orientations + "none"), not `1/5`. -/
theorem c5_amended {K : Type*} [LinearOrderedField K]
    (st : EngineState K) (i : ℕ) (r : ℤ) (d : Bool) (h : ℕ)
    (hp : h < st.prior.length) (hq : h < st.psi.length)
    (hG : 0 < (List.zipWith (fun p row => p * gradedPObs st.mix (row.getD i 0) r)
        st.prior st.psi).sum)
    (hB : 0 < (List.zipWith (fun p row => p * binaryPObs st.mix (row.getD i 0) d)
        st.prior st.psi).sum) :
    (gradedUpdate st i r).prior.getD h 0 =
        st.prior.getD h 0 *
          ((1 - st.mix) * gradedPObsRaw ((st.psi.getD h []).getD i 0) r +
            st.mix * (1/7)) /
          (List.zipWith (fun p row => p * gradedPObs st.mix (row.getD i 0) r)
            st.prior st.psi).sum ∧
      (binaryUpdate st i d).prior.getD h 0 =
        st.prior.getD h 0 *
          ((1 - st.mix) * binaryPObsRaw ((st.psi.getD h []).getD i 0) d +
            st.mix * (1/2)) /
          (List.zipWith (fun p row => p * binaryPObs st.mix (row.getD i 0) d)
            st.prior st.psi).sum := by
  constructor
  · simp only [gradedUpdate, if_pos hG]
    rw [getD_map_div]
    congr 1
    rw [getD_zipWith _ 0 [] 0 st.prior st.psi h hp hq]
    simp only [gradedPObs]
  · simp only [binaryUpdate, if_pos hB]
    rw [getD_map_div]
    congr 1
    rw [getD_zipWith _ 0 [] 0 st.prior st.psi h hp hq]
    simp only [binaryPObs]

/-- Witness for the amended C5 at the concrete state `stBasic`. -/
theorem c5_amended_witness :
    0 < (List.zipWith (fun p row => p * gradedPObs stBasic.mix (row.getD 0 0) 1)
        stBasic.prior stBasic.psi).sum ∧
      (gradedUpdate stBasic 0 1).prior.getD 0 0 =
        stBasic.prior.getD 0 0 *
          ((1 - stBasic.mix) * gradedPObsRaw ((stBasic.psi.getD 0 []).getD 0 0) 1 +
            stBasic.mix * (1/7)) /
          (List.zipWith (fun p row => p * gradedPObs stBasic.mix (row.getD 0 0) 1)
            stBasic.prior stBasic.psi).sum := by
  have hG : 0 < (List.zipWith (fun p row => p * gradedPObs stBasic.mix (row.getD 0 0) 1)
      stBasic.prior stBasic.psi).sum := by
    norm_num [stBasic, gradedPObs, gradedPObsRaw, gradedLapse, gradedGuessRate, gradedKernel]
  have hB : 0 < (List.zipWith (fun p row => p * binaryPObs stBasic.mix (row.getD 0 0) true)
      stBasic.prior stBasic.psi).sum := by
    norm_num [stBasic, binaryPObs, binaryPObsRaw]
  exact ⟨hG, (c5_amended stBasic 0 1 true 0 (by norm_num [stBasic])
    (by norm_num [stBasic]) hG hB).1⟩

end QCSF

namespace QCSF

/-- Claim **C9** — the CSF model function computes exactly
`g - max(b,0.2)*Delta^2 - (Delta > 0 ? max(d,0.2)*Delta^4 : 0)` with
`Delta = log10(max(freq,0.05)) - log10(max(f,0.2))`; it is a pure total
function of its arguments, and the floor clamps keep both logarithm
arguments strictly positive for every `freq` (in particular down to and
including `freq = 0`). -/
theorem c9_logParabolaCSF_formula (freq g f b d : ℝ) :
    logParabolaCSF freq g f b d =
        g - max b 0.2 *
            (Real.logb 10 (max freq 0.05) - Real.logb 10 (max f 0.2)) ^ 2 -
          (if 0 < Real.logb 10 (max freq 0.05) - Real.logb 10 (max f 0.2) then
            max d 0.2 *
              (Real.logb 10 (max freq 0.05) - Real.logb 10 (max f 0.2)) ^ 4
          else 0) ∧
      0 < max freq 0.05 ∧ 0 < max f 0.2 := by
  refine ⟨?_, ?_, ?_⟩
  · simp only [logParabolaCSF, gt_iff_lt]
    rw [max_comm (0.05:ℝ) freq, max_comm (0.2:ℝ) f, max_comm (0.2:ℝ) b,
      max_comm (0.2:ℝ) d]
    by_cases h : 0 < Real.logb 10 (max freq 0.05) - Real.logb 10 (max f 0.2)
    · rw [if_pos h]
      ring
    · rw [if_neg h]
      ring
  · exact lt_of_lt_of_le (by norm_num) (le_max_right freq 0.05)
  · exact lt_of_lt_of_le (by norm_num) (le_max_right f 0.2)

/-- Claim **C6** — the hypothesis grid built at construction contains exactly the
tuples of the Cartesian product of the four configured candidate lists
whose predicted log-sensitivity at the 60 cpd ceiling is `≤ 0`; every
combination above 0 at 60 cpd is excluded and nothing else is. -/
theorem c6_paramGrid_membership (gains freqs bws truncs : List ℝ) (g f b d : ℝ) :
    (g, f, b, d) ∈ buildParamGrid gains freqs bws truncs ↔
      ((g ∈ gains ∧ f ∈ freqs ∧ b ∈ bws ∧ d ∈ truncs) ∧
        logParabolaCSF MAX_HUMAN_CUTOFF_CPD g f b d ≤ 0) := by
  simp only [buildParamGrid, List.mem_bind, List.mem_filterMap]
  constructor
  · rintro ⟨g', hg', f', hf', b', hb', d', hd', hopt⟩
    by_cases hc : logParabolaCSF MAX_HUMAN_CUTOFF_CPD g' f' b' d' ≤ 0
    · rw [if_pos hc, Option.some.injEq, Prod.mk.injEq, Prod.mk.injEq,
        Prod.mk.injEq] at hopt
      obtain ⟨rfl, rfl, rfl, rfl⟩ := hopt
      exact ⟨⟨hg', hf', hb', hd'⟩, hc⟩
    · rw [if_neg hc] at hopt
      exact absurd hopt (by simp)
  · rintro ⟨⟨hg, hf, hb, hd⟩, hle⟩
    exact ⟨g, hg, f, hf, b, hb, d, hd, by rw [if_pos hle]⟩

/-- Claim **C10** — the graded outcome model is a probability distribution: for
any detection probability `psi ∈ [0,1]`, the multiplicity-weighted total of
the five outcome-class probabilities (distances 0,1,2,3 with multiplicities
1,2,2,1, plus "none") equals 1 exactly. -/
theorem c10_graded_outcome_distribution {K : Type*} [LinearOrderedField K]
    (psi : K) (h0 : 0 ≤ psi) (h1 : psi ≤ 1) :
    1 * gradedPObsRaw psi 0 + 2 * gradedPObsRaw psi 1 + 2 * gradedPObsRaw psi 2 +
        1 * gradedPObsRaw psi 3 + gradedPObsRaw psi (-1) = 1 := by
  norm_num [gradedPObsRaw, gradedKernel, gradedLapse, gradedGuessRate]
  ring

/-- Witness for C10 at `psi = 1/2` over `ℚ`. -/
theorem c10_graded_outcome_distribution_witness :
    (0:ℚ) ≤ 1/2 ∧ ((1:ℚ)/2 ≤ 1) ∧
      (1 * gradedPObsRaw ((1:ℚ)/2) 0 + 2 * gradedPObsRaw ((1:ℚ)/2) 1 +
        2 * gradedPObsRaw ((1:ℚ)/2) 2 + 1 * gradedPObsRaw ((1:ℚ)/2) 3 +
        gradedPObsRaw ((1:ℚ)/2) (-1) = 1) :=
  ⟨by norm_num, by norm_num,
    c10_graded_outcome_distribution ((1:ℚ)/2) (by norm_num) (by norm_num)⟩

end QCSF

namespace QCSF

/-- Claim **C4** — counterexample: under a constructor configuration whose only
log-contrast is 0 (a value the default `linspace(-3.0, 0.0, 30)` list also
contains as its endpoint), `selectStimulus` returns
`contrast = 10^0 = 1`, which does not lie strictly inside `(0,1)`. -/
theorem c4_counterexample :
    (selectStimulus unitState).contrast = 1 ∧
      (selectStimulus unitState).contrast ∉ Set.Ioo (0:ℝ) 1 := by
  have hgrid : unitState.stimGrid = [((4:ℝ), 0)] := by
    simp [unitState, mkEngine, unitContrastConfig, buildStimGrid]
  have hlc : ∀ n : ℕ, ((unitState.stimGrid.getD n (0, 0)).2 : ℝ) = 0 := by
    intro n
    rw [hgrid]
    match n with
    | 0 => rfl
    | m + 1 => rw [List.getD_eq_default _ _ (by simp)]
  have h1 : (selectStimulus unitState).contrast = 1 := by
    show (10:ℝ) ^ (unitState.stimGrid.getD (bestIndex (eeList unitState)) (0, 0)).2 = 1
    rw [hlc, Real.rpow_zero]
  exact ⟨h1, by rw [h1]; simp⟩

/-- Claim **C4** (amended) — the candidate returned by `selectStimulus` always
satisfies `contrast = 10^logContrast` and `contrast > 0`; when every
configured log-contrast is `≤ 0` (as in the default list, whose values span
`[-3, 0]`), the returned contrast is `≤ 1`, with `contrast = 1` attained at
the log-contrast-0 endpoint, so `(0, 1]` — not the open interval `(0,1)` —
is the guaranteed range. -/
theorem c4_amended (st : EngineState ℝ) :
    (selectStimulus st).contrast = (10:ℝ) ^ (selectStimulus st).logContrast ∧
      0 < (selectStimulus st).contrast ∧
      ((∀ p ∈ st.stimGrid, p.2 ≤ 0) → (selectStimulus st).contrast ≤ 1) := by
  refine ⟨rfl, Real.rpow_pos_of_pos (by norm_num) _, ?_⟩
  intro hall
  show (10:ℝ) ^ (st.stimGrid.getD (bestIndex (eeList st)) (0, 0)).2 ≤ 1
  rcases lt_or_ge (bestIndex (eeList st)) st.stimGrid.length with hlt | hge
  · have hmem : st.stimGrid.getD (bestIndex (eeList st)) (0, 0) ∈ st.stimGrid := by
      rw [List.getD_eq_getElem _ _ hlt]
      exact List.getElem_mem hlt
    exact Real.rpow_le_one_of_one_le_of_nonpos (by norm_num) (hall _ hmem)
  · rw [List.getD_eq_default _ _ hge]
    norm_num

/-- Witness for the amended C4 at the concrete constructed state. -/
theorem c4_amended_witness :
    (∀ p ∈ unitState.stimGrid, p.2 ≤ (0:ℝ)) ∧
      (selectStimulus unitState).contrast ≤ 1 := by
  have hall : ∀ p ∈ unitState.stimGrid, p.2 ≤ (0:ℝ) := by
    intro p hp
    simp [unitState, mkEngine, unitContrastConfig, buildStimGrid] at hp
    rw [hp]
  exact ⟨hall, (c4_amended unitState).2.2 hall⟩

end QCSF

namespace QCSF

/-- Auxiliary: every entry of `bumpFreq l f` either has key `f` or was
already in `l`. -/
theorem bumpFreq_keys {K : Type*} [DecidableEq K] (f : K) :
    ∀ (l : List (K × ℕ)), ∀ e ∈ bumpFreq l f, e.1 = f ∨ e ∈ l := by
  intro l
  induction l with
  | nil =>
    intro e he
    simp only [bumpFreq, List.mem_singleton] at he
    exact Or.inl (by rw [he])
  | cons a l ih =>
    obtain ⟨k, n⟩ := a
    intro e he
    by_cases hk : k = f
    · rw [bumpFreq, if_pos hk] at he
      rcases List.mem_cons.1 he with h | h
      · exact Or.inl (by rw [h, hk])
      · exact Or.inr (List.mem_cons_of_mem _ h)
    · rw [bumpFreq, if_neg hk] at he
      rcases List.mem_cons.1 he with h | h
      · exact Or.inr (h ▸ List.mem_cons_self _ _)
      · rcases ih e h with h1 | h1
        · exact Or.inl h1
        · exact Or.inr (List.mem_cons_of_mem _ h1)

/-- Auxiliary: `bandTrialCount` after a `bumpFreq` grows by exactly the
in-band indicator of the bumped frequency. -/
theorem bandTrialCount_bumpFreq {K : Type*} [LinearOrder K] (f lo hi : K) (q : ℕ) :
    ∀ l : List (K × ℕ),
      bandTrialCount (bumpFreq l f) (lo, hi, q) =
        bandTrialCount l (lo, hi, q) + (if lo ≤ f ∧ f < hi then 1 else 0) := by
  intro l
  induction l with
  | nil => simp [bumpFreq, bandTrialCount]
  | cons a l ih =>
    obtain ⟨k, n⟩ := a
    by_cases hk : k = f
    · rw [bumpFreq, if_pos hk]
      subst hk
      simp only [bandTrialCount, List.map_cons, List.sum_cons]
      split_ifs <;> omega
    · rw [bumpFreq, if_neg hk]
      simp only [bandTrialCount, List.map_cons, List.sum_cons] at ih ⊢
      omega

/-- Auxiliary: a counter list supported on frequencies 4, 60 and 0
contributes nothing to the low band `[0.5, 2)`. -/
theorem bandTrialCount_low_band_zero (counts : List (ℝ × ℕ))
    (h : ∀ e ∈ counts, e.1 = (4:ℝ) ∨ e.1 = 60 ∨ e.1 = 0) :
    bandTrialCount counts ((0.5:ℝ), 2, 8) = 0 := by
  induction counts with
  | nil => rfl
  | cons a l ih =>
    simp only [bandTrialCount, List.map_cons, List.sum_cons]
    have ha := h a (List.mem_cons_self a l)
    have hzero : (if (0.5:ℝ) ≤ a.1 ∧ a.1 < 2 then a.2 else 0) = 0 := by
      rcases ha with h1 | h1 | h1 <;> rw [if_neg (by rw [h1]; norm_num)]
    rw [hzero]
    simpa [bandTrialCount] using ih fun e he => h e (List.mem_cons_of_mem a he)

/-- Auxiliary: the stimulus grid of `cexState`. -/
theorem cex_stimGrid :
    cexState.stimGrid = [((4:ℝ), 0.12), (4, 0.142), (60, 0.12), (60, 0.142)] := by
  simp [cexState, mkEngine, cexConfig, buildStimGrid]

/-- Auxiliary: every frequency fetched from the `cexState` stimulus grid
(in or out of range) is 4, 60 or the default 0. -/
theorem cex_stimGrid_freqs (i : ℕ) :
    (cexState.stimGrid.getD i ((0:ℝ), (0:ℝ))).1 = 4 ∨
      (cexState.stimGrid.getD i ((0:ℝ), (0:ℝ))).1 = 60 ∨
      (cexState.stimGrid.getD i ((0:ℝ), (0:ℝ))).1 = 0 := by
  rw [cex_stimGrid]
  match i with
  | 0 => exact Or.inl rfl
  | 1 => exact Or.inl rfl
  | 2 => exact Or.inr (Or.inl rfl)
  | 3 => exact Or.inr (Or.inl rfl)
  | m + 4 => exact Or.inr (Or.inr (by rw [List.getD_eq_default _ _ (by simp)]))

/-- Auxiliary: along the all-false select-then-update run from `cexState`,
the stimulus grid is unchanged, the frequency counters stay supported on
`{4, 60, 0}`, and the trial counter equals the number of trials. -/
theorem runFalse_invariant (n : ℕ) :
    (runFalse cexState n).stimGrid = cexState.stimGrid ∧
      (∀ e ∈ (runFalse cexState n).freqCounts,
        e.1 = (4:ℝ) ∨ e.1 = 60 ∨ e.1 = 0) ∧
      (runFalse cexState n).trialCount = n := by
  induction n with
  | zero =>
    refine ⟨rfl, ?_, rfl⟩
    intro e he
    simp [runFalse, cexState, mkEngine] at he
  | succ m ih =>
    obtain ⟨hg, hk, ht⟩ := ih
    have hstim : (runFalse cexState (m + 1)).stimGrid = (runFalse cexState m).stimGrid := rfl
    refine ⟨by rw [hstim, hg], ?_, ?_⟩
    · intro e he
      have he2 : e ∈ bumpFreq (runFalse cexState m).freqCounts
          (((runFalse cexState m).stimGrid.getD
            (selectStimulus (runFalse cexState m)).stimIndex ((0:ℝ), (0:ℝ))).1) := he
      rcases bumpFreq_keys _ _ e he2 with h | h
      · rw [hg] at h
        rcases cex_stimGrid_freqs (selectStimulus (runFalse cexState m)).stimIndex
          with h4 | h60 | h0
        · exact Or.inl (by rw [h, h4])
        · exact Or.inr (Or.inl (by rw [h, h60]))
        · exact Or.inr (Or.inr (by rw [h, h0]))
      · exact hk e h
    · show (runFalse cexState m).trialCount + 1 = m + 1
      rw [ht]

/-- Claim **C8** — counterexample: the engine accepts a configuration whose
stimulus frequencies (4 and 60 cpd) never fall in the low band `[0.5, 2)`
(quota 8).  Running 31 select-then-update trials — the sum of all band
quotas — with all-"false" responses leaves that band with 0 accumulated
trials, so the claimed coverage guarantee fails: the quota table only
rescales selection scores, it cannot create trials in bands the stimulus
grid never visits. -/
theorem c8_counterexample :
    ((0.5:ℝ), 2, (8:ℕ)) ∈ FREQ_BANDS ∧
      (runFalse cexState 31).trialCount = 31 ∧
      bandTrialCount (runFalse cexState 31).freqCounts ((0.5:ℝ), 2, 8) = 0 ∧
      bandTrialCount (runFalse cexState 31).freqCounts ((0.5:ℝ), 2, 8) < 8 := by
  obtain ⟨-, hk, ht⟩ := runFalse_invariant 31
  have h0 := bandTrialCount_low_band_zero _ hk
  exact ⟨by simp [FREQ_BANDS], ht, h0, by rw [h0]; norm_num⟩

/-- Claim **C8** (amended) — what the counters actually guarantee: each update
adds exactly one trial to the chosen stimulus's frequency counter, so after
any run a band's accumulated count equals the number of trials whose
frequency fell inside it; a band containing no configured stimulus
frequency accumulates nothing regardless of the trial budget. -/
theorem c8_amended {K : Type*} [LinearOrderedField K]
    (st : EngineState K) (i : ℕ) (r : ℤ) (d : Bool) (lo hi : K) (q : ℕ) :
    bandTrialCount (gradedUpdate st i r).freqCounts (lo, hi, q) =
        bandTrialCount st.freqCounts (lo, hi, q) +
          (if lo ≤ (st.stimGrid.getD i (0, 0)).1 ∧ (st.stimGrid.getD i (0, 0)).1 < hi
            then 1 else 0) ∧
      bandTrialCount (binaryUpdate st i d).freqCounts (lo, hi, q) =
        bandTrialCount st.freqCounts (lo, hi, q) +
          (if lo ≤ (st.stimGrid.getD i (0, 0)).1 ∧ (st.stimGrid.getD i (0, 0)).1 < hi
            then 1 else 0) :=
  ⟨bandTrialCount_bumpFreq _ lo hi q st.freqCounts,
    bandTrialCount_bumpFreq _ lo hi q st.freqCounts⟩

end QCSF

namespace QCSF

/-- Auxiliary: lower bound `1 - 1/x ≤ log x`. -/
theorem one_sub_inv_le_log (x : ℝ) (hx : 0 < x) : 1 - x⁻¹ ≤ Real.log x := by
  have h := Real.log_le_sub_one_of_pos (inv_pos.2 hx)
  rw [Real.log_inv] at h
  linarith

/-- Auxiliary: eighth-power lower bound on the exponential,
`(1 + t/8)^8 ≤ exp t` for `t ≥ 0`. -/
theorem pow8_le_exp (t : ℝ) (ht : 0 ≤ t) : (1 + t/8) ^ (8:ℕ) ≤ Real.exp t := by
  have h1 : 1 + t/8 ≤ Real.exp (t/8) := by
    have := Real.add_one_le_exp (t/8)
    linarith
  have h2 : (1 + t/8) ^ (8:ℕ) ≤ Real.exp (t/8) ^ (8:ℕ) :=
    pow_le_pow_left (by linarith) h1 8
  have h3 : Real.exp ((8:ℕ) * (t/8)) = Real.exp (t/8) ^ (8:ℕ) := Real.exp_nat_mul _ 8
  have h4 : ((8:ℕ) : ℝ) * (t/8) = t := by push_cast; ring
  rw [h4] at h3
  linarith [h2, le_of_eq h3.symm]

/-- Auxiliary: `exp (-t) ≤ 1/(1+t)` for `t ≥ 0`. -/
theorem exp_neg_le_inv (t : ℝ) (ht : 0 ≤ t) : Real.exp (-t) ≤ (1 + t)⁻¹ := by
  have h1 : 1 + t ≤ Real.exp t := by
    have := Real.add_one_le_exp t
    linarith
  rw [Real.exp_neg]
  exact inv_le_inv_of_le (by linarith) h1

/-- Auxiliary: bounds on `log 10` via `10 = 2^3 * 1.25`. -/
theorem log_ten_bounds : (2.2794:ℝ) ≤ Real.log 10 ∧ Real.log 10 ≤ 2.3295 := by
  have h10 : (10:ℝ) = 2 ^ (3:ℕ) * 1.25 := by norm_num
  have hsplit : Real.log 10 = 3 * Real.log 2 + Real.log 1.25 := by
    rw [h10, Real.log_mul (by norm_num) (by norm_num), Real.log_pow]
    norm_num
  have hlb : (0.2:ℝ) ≤ Real.log 1.25 := by
    have := one_sub_inv_le_log 1.25 (by norm_num)
    norm_num at this
    linarith
  have hub : Real.log 1.25 ≤ 0.25 := by
    have := Real.log_le_sub_one_of_pos (x := 1.25) (by norm_num)
    linarith
  constructor
  · rw [hsplit]
    nlinarith [Real.log_two_gt_d9]
  · rw [hsplit]
    nlinarith [Real.log_two_lt_d9]

/-- Auxiliary: bounds on `log 15` via `15 = 2^4 / (16/15)`. -/
theorem log_fifteen_bounds : (2.7059:ℝ) ≤ Real.log 15 ∧ Real.log 15 ≤ 2.7101 := by
  have h15 : (15:ℝ) = 2 ^ (4:ℕ) / (16/15) := by norm_num
  have hsplit : Real.log 15 = 4 * Real.log 2 - Real.log (16/15) := by
    rw [h15, Real.log_div (by norm_num) (by norm_num), Real.log_pow]
    norm_num
  have hlb : (1/16:ℝ) ≤ Real.log (16/15) := by
    have := one_sub_inv_le_log (16/15) (by norm_num)
    norm_num at this
    linarith
  have hub : Real.log (16/15) ≤ 1/15 := by
    have := Real.log_le_sub_one_of_pos (x := (16/15:ℝ)) (by norm_num)
    linarith
  constructor
  · rw [hsplit]
    nlinarith [Real.log_two_gt_d9]
  · rw [hsplit]
    nlinarith [Real.log_two_lt_d9]

/-- Auxiliary: bounds on `L = log10 15`, the log-frequency distance between
60 cpd and the 4 cpd clinical centre. -/
theorem logb_ten_fifteen_bounds :
    (1.161:ℝ) ≤ Real.logb 10 15 ∧ Real.logb 10 15 ≤ 1.19 := by
  have h15 := log_fifteen_bounds
  have h10 := log_ten_bounds
  have h10pos : (0:ℝ) < Real.log 10 := by linarith
  constructor
  · rw [Real.logb, le_div_iff h10pos]
    nlinarith
  · rw [Real.logb, div_le_iff h10pos]
    nlinarith

end QCSF

namespace QCSF

/-- Auxiliary: `3/2 ≤ log2 3` (from `8 ≤ 9`). -/
theorem logb_two_three_lb : (3/2:ℝ) ≤ Real.logb 2 3 := by
  have h2 : (0:ℝ) < Real.log 2 := Real.log_pos (by norm_num)
  have h : Real.log (2 ^ (3:ℕ)) ≤ Real.log (3 ^ (2:ℕ)) :=
    Real.log_le_log (by norm_num) (by norm_num)
  rw [Real.log_pow, Real.log_pow] at h
  rw [Real.logb, le_div_iff h2]
  push_cast at h
  nlinarith

/-- Auxiliary: `log2 3 ≤ 8/5` (from `243 ≤ 256`). -/
theorem logb_two_three_ub : Real.logb 2 3 ≤ (8/5:ℝ) := by
  have h2 : (0:ℝ) < Real.log 2 := Real.log_pos (by norm_num)
  have h : Real.log (3 ^ (5:ℕ)) ≤ Real.log (2 ^ (8:ℕ)) :=
    Real.log_le_log (by norm_num) (by norm_num)
  rw [Real.log_pow, Real.log_pow] at h
  rw [Real.logb, div_le_iff h2]
  push_cast at h
  nlinarith

/-- Auxiliary: `log2 n ≤ k` whenever `n ≤ 2^k`. -/
theorem logb_two_le_of_le_pow (n : ℝ) (k : ℕ) (hn : 0 < n) (h : n ≤ 2 ^ k) :
    Real.logb 2 n ≤ (k : ℝ) := by
  have h2 : (0:ℝ) < Real.log 2 := Real.log_pos (by norm_num)
  have hlog : Real.log n ≤ Real.log (2 ^ k) := Real.log_le_log hn h
  rw [Real.log_pow] at hlog
  rw [Real.logb, div_le_iff h2]
  nlinarith

/-- Auxiliary: `1 ≤ log2 x` whenever `2 ≤ x`. -/
theorem one_le_logb_two (x : ℝ) (h : 2 ≤ x) : (1:ℝ) ≤ Real.logb 2 x := by
  have h2 : (0:ℝ) < Real.log 2 := Real.log_pos (by norm_num)
  have hlog : Real.log 2 ≤ Real.log x := Real.log_le_log (by norm_num) h
  rw [Real.logb, le_div_iff h2]
  nlinarith

/-- Auxiliary: an entropy term of a probability in `(0,1]` is nonnegative. -/
theorem entropy_term_nonneg (x : ℝ) (h0 : 0 < x) (h1 : x ≤ 1) :
    0 ≤ -(x * Real.logb 2 x) := by
  have := Real.logb_nonpos (b := 2) (by norm_num) (le_of_lt h0) h1
  nlinarith

/-- Auxiliary: an entropy term of a probability near 1 is at most
`3/2 * (1 - x)` (via `log(1/x) ≤ 1/x - 1` and `log 2 > 2/3`). -/
theorem entropy_term_near_one (x : ℝ) (h0 : 0 < x) (h1 : x ≤ 1) :
    -(x * Real.logb 2 x) ≤ 3/2 * (1 - x) := by
  have h2 : (2/3:ℝ) < Real.log 2 := by nlinarith [Real.log_two_gt_d9]
  have hlog : 1 - x⁻¹ ≤ Real.log x := one_sub_inv_le_log x h0
  have hx : -(Real.log x) ≤ x⁻¹ - 1 := by linarith
  have hmul : -(x * Real.log x) ≤ x * (x⁻¹ - 1) := by
    have := mul_le_mul_of_nonneg_left hx (le_of_lt h0)
    nlinarith
  have hxx : x * (x⁻¹ - 1) = 1 - x := by
    field_simp
  rw [hxx] at hmul
  rw [Real.logb]
  have hlog2pos : (0:ℝ) < Real.log 2 := by linarith
  rw [div_eq_mul_inv, ← mul_assoc, ← neg_mul]
  have hinv : (Real.log 2)⁻¹ ≤ 3/2 := by
    rw [inv_le (by linarith) (by norm_num)]
    linarith
  have hnn : 0 ≤ -(x * Real.log x) := by
    have hlogx : Real.log x ≤ 0 := Real.log_nonpos (le_of_lt h0) h1
    nlinarith
  calc -(x * Real.log x) * (Real.log 2)⁻¹ ≤ (1 - x) * (3/2) := by
        apply mul_le_mul hmul hinv (inv_nonneg.2 (le_of_lt hlog2pos)) (by linarith)
    _ = 3/2 * (1 - x) := by ring

/-- Auxiliary: Gibbs bound for a three-point distribution:
its Shannon entropy (base 2) is at most `log2 3`. -/
theorem entropy3_le_logb (a b c : ℝ) (ha : 0 < a) (hb : 0 < b) (hc : 0 < c)
    (habc : a + b + c = 1) :
    -(a * Real.logb 2 a) - b * Real.logb 2 b - c * Real.logb 2 c ≤ Real.logb 2 3 := by
  have h2 : (0:ℝ) < Real.log 2 := Real.log_pos (by norm_num)
  have key : ∀ x : ℝ, 0 < x → -(x * Real.log x) ≤ 1/3 - x + x * Real.log 3 := by
    intro x hx
    have hpos : (0:ℝ) < 1 / (3 * x) := by positivity
    have hlog := Real.log_le_sub_one_of_pos hpos
    have hexpand : Real.log (1 / (3 * x)) = -(Real.log 3) - Real.log x := by
      rw [one_div, Real.log_inv, Real.log_mul (by norm_num) (ne_of_gt hx)]
      ring
    rw [hexpand] at hlog
    have hmul := mul_le_mul_of_nonneg_left hlog (le_of_lt hx)
    have hxx : x * (1 / (3 * x) - 1) = 1/3 - x := by
      field_simp
      ring
    nlinarith [hmul, hxx]
  have ka := key a ha
  have kb := key b hb
  have kc := key c hc
  have hdist : a * Real.log 3 + b * Real.log 3 + c * Real.log 3 = Real.log 3 := by
    have h : a * Real.log 3 + b * Real.log 3 + c * Real.log 3 =
        (a + b + c) * Real.log 3 := by ring
    rw [h, habc, one_mul]
  have hsum : -(a * Real.log a) - b * Real.log b - c * Real.log c ≤ Real.log 3 := by
    linarith
  have final : (-(a * Real.log a) - b * Real.log b - c * Real.log c) / Real.log 2 ≤
      Real.log 3 / Real.log 2 := by
    exact div_le_div_of_nonneg_right hsum (le_of_lt h2)
  simp only [Real.logb]
  have heq : -(a * (Real.log a / Real.log 2)) - b * (Real.log b / Real.log 2) -
      c * (Real.log c / Real.log 2) =
      (-(a * Real.log a) - b * Real.log b - c * Real.log c) / Real.log 2 := by ring
  rw [heq]
  exact final

end QCSF

namespace QCSF

/-- Auxiliary: with the slope `10^6`, the clamped psychometric value is
exactly `0.999` whenever the log-sensitivity margin is at least `1/1000`. -/
theorem clamp_psi_hi (x : ℝ) (hx : 1/1000 ≤ x) :
    clamp01 (psiLogistic 1000000 x) = 0.999 := by
  have he : Real.exp (-1000000 * x) ≤ 1/1001 := by
    rw [neg_mul]
    calc Real.exp (-(1000000 * x)) ≤ Real.exp (-1000) := Real.exp_le_exp.2 (by nlinarith)
      _ ≤ (1 + 1000)⁻¹ := exp_neg_le_inv 1000 (by norm_num)
      _ = 1/1001 := by norm_num
  have hepos : (0:ℝ) < Real.exp (-1000000 * x) := Real.exp_pos _
  have hpsi : (999/1000:ℝ) ≤ psiLogistic 1000000 x := by
    unfold psiLogistic
    rw [le_div_iff (by linarith)]
    nlinarith
  have hpsi1 : psiLogistic 1000000 x ≤ 1 := by
    unfold psiLogistic
    rw [div_le_one (by linarith)]
    linarith
  unfold clamp01
  have hmin : min (0.999:ℝ) (psiLogistic 1000000 x) = 0.999 := by
    apply min_eq_left
    norm_num
    linarith
  rw [hmin]
  norm_num

/-- Auxiliary: with the slope `10^6`, the clamped psychometric value is
exactly `0.001` whenever the log-sensitivity margin is at most `-1/1000`. -/
theorem clamp_psi_lo (x : ℝ) (hx : x ≤ -(1/1000)) :
    clamp01 (psiLogistic 1000000 x) = 0.001 := by
  have he : (1001:ℝ) ≤ Real.exp (-1000000 * x) := by
    rw [neg_mul]
    calc (1001:ℝ) ≤ Real.exp 1000 := by linarith [Real.add_one_le_exp (1000:ℝ)]
      _ ≤ Real.exp (-(1000000 * x)) := Real.exp_le_exp.2 (by nlinarith)
  have hepos : (0:ℝ) < Real.exp (-1000000 * x) := Real.exp_pos _
  have hpsi : psiLogistic 1000000 x ≤ 1/1002 := by
    unfold psiLogistic
    rw [div_le_div_iff (by linarith) (by norm_num)]
    linarith
  have hpsipos : 0 < psiLogistic 1000000 x := by
    unfold psiLogistic
    positivity
  unfold clamp01
  have hmin : min (0.999:ℝ) (psiLogistic 1000000 x) = psiLogistic 1000000 x := by
    apply min_eq_right
    norm_num
    linarith
  rw [hmin]
  apply max_eq_left
  norm_num
  linarith

/-- Auxiliary: the Yes/No configuration has `gamma = falseAlarmRate = 0`. -/
theorem gammaOf_cexConfig : gammaOf cexConfig = 0 := by
  simp [gammaOf, cexConfig]

/-- Auxiliary: at the peak frequency 60 the CSF model returns the peak gain. -/
theorem logParabolaCSF_peak60 (g b d : ℝ) : logParabolaCSF 60 g 60 b d = g := by
  have h1 : max (0.05:ℝ) 60 = 60 := by norm_num
  have h2 : max (0.2:ℝ) 60 = 60 := by norm_num
  simp only [logParabolaCSF, h1, h2, sub_self, gt_iff_lt, lt_irrefl, if_false,
    mul_zero, zero_mul, sub_zero]

/-- Auxiliary: at 4 cpd with peak 60 and bandwidth 0.2 the CSF model drops
by `0.2 * (log10 15)^2` below the peak gain. -/
theorem logParabolaCSF_four (g d : ℝ) :
    logParabolaCSF 4 g 60 0.2 d = g - 0.2 * (Real.logb 10 15) ^ 2 := by
  have h1 : max (0.05:ℝ) 4 = 4 := by norm_num
  have h2 : max (0.2:ℝ) 60 = 60 := by norm_num
  have h3 : max (0.2:ℝ) 0.2 = 0.2 := by norm_num
  have hdelta : Real.logb 10 4 - Real.logb 10 60 = -(Real.logb 10 15) := by
    have hd : Real.logb 10 (60 / 4) = Real.logb 10 60 - Real.logb 10 4 :=
      Real.logb_div (by norm_num) (by norm_num)
    have h604 : (60:ℝ) / 4 = 15 := by norm_num
    rw [h604] at hd
    linarith
  have hL : 0 < Real.logb 10 15 := Real.logb_pos (by norm_num) (by norm_num)
  simp only [logParabolaCSF, h1, h2, h3, hdelta, gt_iff_lt]
  rw [if_neg (by linarith)]
  ring

end QCSF

namespace QCSF

/-- Auxiliary: under `cexConfig` (gamma = lapse = 0) a matrix entry is the
clamped logistic of `logSens + logContrast`. -/
theorem pce_cex (p : ℝ × ℝ × ℝ × ℝ) (s : ℝ × ℝ) :
    pCorrectEntry cexConfig p s =
      clamp01 (psiLogistic 1000000
        (logParabolaCSF s.1 p.1 p.2.1 p.2.2.1 p.2.2.2 + s.2)) := by
  simp only [pCorrectEntry, gammaOf_cexConfig]
  norm_num [cexConfig, sub_neg_eq_add]

/-- Auxiliary: a `cexConfig` matrix entry at a 60 cpd stimulus with
`g + logContrast ≥ 1/1000` is exactly the high clamp `0.999`. -/
theorem pce_sixty_hi (g lc b d : ℝ) (h : 1/1000 ≤ g + lc) :
    pCorrectEntry cexConfig (g, 60, b, d) (60, lc) = 0.999 := by
  rw [pce_cex]
  show clamp01 (psiLogistic 1000000 (logParabolaCSF 60 g 60 b d + lc)) = 0.999
  rw [logParabolaCSF_peak60]
  exact clamp_psi_hi _ h

/-- Auxiliary: a `cexConfig` matrix entry at a 60 cpd stimulus with
`g + logContrast ≤ -1/1000` is exactly the low clamp `0.001`. -/
theorem pce_sixty_lo (g lc b d : ℝ) (h : g + lc ≤ -(1/1000)) :
    pCorrectEntry cexConfig (g, 60, b, d) (60, lc) = 0.001 := by
  rw [pce_cex]
  show clamp01 (psiLogistic 1000000 (logParabolaCSF 60 g 60 b d + lc)) = 0.001
  rw [logParabolaCSF_peak60]
  exact clamp_psi_lo _ h

/-- Auxiliary: a `cexConfig` matrix entry at the 4 cpd stimulus is the low
clamp `0.001` whenever `g + logContrast ≤ 1/20` (the `0.2 * (log10 15)^2`
drop then forces the margin far below `-1/1000`). -/
theorem pce_four_lo (g lc d : ℝ) (h : g + lc ≤ 1/20) :
    pCorrectEntry cexConfig (g, 60, 0.2, d) (4, lc) = 0.001 := by
  rw [pce_cex]
  show clamp01 (psiLogistic 1000000 (logParabolaCSF 4 g 60 0.2 d + lc)) = 0.001
  rw [logParabolaCSF_four]
  apply clamp_psi_lo
  have hL := logb_ten_fifteen_bounds
  nlinarith [hL.1, hL.2]

/-- Auxiliary: the hypothesis grid of `cexConfig` evaluated. -/
theorem cex_buildParamGrid :
    buildParamGrid [(-0.1:ℝ), -0.14, -0.145] [60] [0.2] [1] =
      [((-0.1:ℝ), 60, 0.2, 1), ((-0.14:ℝ), 60, 0.2, 1), ((-0.145:ℝ), 60, 0.2, 1)] := by
  have h1 : logParabolaCSF MAX_HUMAN_CUTOFF_CPD (-0.1) 60 0.2 1 ≤ 0 := by
    show logParabolaCSF 60 (-0.1) 60 0.2 1 ≤ 0
    rw [logParabolaCSF_peak60]
    norm_num
  have h2 : logParabolaCSF MAX_HUMAN_CUTOFF_CPD (-0.14) 60 0.2 1 ≤ 0 := by
    show logParabolaCSF 60 (-0.14) 60 0.2 1 ≤ 0
    rw [logParabolaCSF_peak60]
    norm_num
  have h3 : logParabolaCSF MAX_HUMAN_CUTOFF_CPD (-0.145) 60 0.2 1 ≤ 0 := by
    show logParabolaCSF 60 (-0.145) 60 0.2 1 ≤ 0
    rw [logParabolaCSF_peak60]
    norm_num
  simp [buildParamGrid, h1, h2, h3]

/-- Auxiliary: the evaluated `cexState` hypothesis grid. -/
theorem cex_paramGrid :
    cexState.paramGrid =
      [((-0.1:ℝ), 60, 0.2, 1), ((-0.14:ℝ), 60, 0.2, 1), ((-0.145:ℝ), 60, 0.2, 1)] := by
  show (mkEngine cexConfig).paramGrid = _
  simp only [mkEngine, cexConfig]
  exact cex_buildParamGrid

/-- Auxiliary: the evaluated `cexState` uniform prior. -/
theorem cex_prior : cexState.prior = [(1/3:ℝ), 1/3, 1/3] := by
  show (mkEngine cexConfig).prior = _
  simp only [mkEngine, cexConfig, cex_buildParamGrid]
  norm_num [List.replicate]

/-- Auxiliary: the evaluated `cexState` clamped psychometric matrix. -/
theorem cex_psi :
    cexState.psi =
      [[(0.001:ℝ), 0.001, 0.999, 0.999],
        [(0.001:ℝ), 0.001, 0.001, 0.999],
        [(0.001:ℝ), 0.001, 0.001, 0.001]] := by
  show (mkEngine cexConfig).psi = _
  simp only [mkEngine]
  have hs : buildStimGrid [(4:ℝ), 60] [0.12, 0.142] =
      [((4:ℝ), 0.12), (4, 0.142), (60, 0.12), (60, 0.142)] := by
    simp [buildStimGrid]
  rw [show cexConfig.peakGainValues = [(-0.1:ℝ), -0.14, -0.145] from rfl,
    show cexConfig.peakFreqValues = [(60:ℝ)] from rfl,
    show cexConfig.bandwidthValues = [(0.2:ℝ)] from rfl,
    show cexConfig.truncationValues = [(1:ℝ)] from rfl,
    show cexConfig.stimFreqs = [(4:ℝ), 60] from rfl,
    show cexConfig.stimLogContrasts = [(0.12:ℝ), 0.142] from rfl,
    cex_buildParamGrid, hs]
  simp only [List.map_cons, List.map_nil]
  rw [pce_four_lo (-0.1) 0.12 1 (by norm_num),
    pce_four_lo (-0.1) 0.142 1 (by norm_num),
    pce_sixty_hi (-0.1) 0.12 0.2 1 (by norm_num),
    pce_sixty_hi (-0.1) 0.142 0.2 1 (by norm_num),
    pce_four_lo (-0.14) 0.12 1 (by norm_num),
    pce_four_lo (-0.14) 0.142 1 (by norm_num),
    pce_sixty_lo (-0.14) 0.12 0.2 1 (by norm_num),
    pce_sixty_hi (-0.14) 0.142 0.2 1 (by norm_num),
    pce_four_lo (-0.145) 0.12 1 (by norm_num),
    pce_four_lo (-0.145) 0.142 1 (by norm_num),
    pce_sixty_lo (-0.145) 0.12 0.2 1 (by norm_num),
    pce_sixty_lo (-0.145) 0.142 0.2 1 (by norm_num)]

end QCSF

namespace QCSF

theorem cex_base0 : baseEntropyAt cexState 0 = Real.logb 2 3 := by
  have h3 : Real.logb 2 ((1:ℝ)/3) = -Real.logb 2 3 := by
    rw [one_div, Real.logb_inv]
  simp only [baseEntropyAt, pCorrMarginal, hCorrect, hIncorrect, cex_prior, cex_psi]
  norm_num [epsGuard, entTerm, h3]
  ring

end QCSF

namespace QCSF

/-- Auxiliary: an entropy term of a probability at most `1/2` is at least
the probability itself. -/
theorem entropy_term_ge_self (x : ℝ) (h0 : 0 < x) (h : x ≤ 1/2) :
    x ≤ -(x * Real.logb 2 x) := by
  have hinv : (2:ℝ) ≤ x⁻¹ := by
    rw [le_inv (by norm_num) h0]
    linarith
  have hlog := one_le_logb_two x⁻¹ hinv
  rw [Real.logb_inv] at hlog
  nlinarith

theorem cex_base2_lb : (666/1000:ℝ) ≤ baseEntropyAt cexState 2 := by
  simp only [baseEntropyAt, pCorrMarginal, hCorrect, hIncorrect, cex_prior, cex_psi]
  norm_num [epsGuard, entTerm]
  nlinarith [entropy_term_nonneg (999/1001) (by norm_num) (by norm_num),
    entropy_term_nonneg (1/1001) (by norm_num) (by norm_num),
    entropy_term_nonneg (1/1999) (by norm_num) (by norm_num),
    entropy_term_ge_self (999/1999) (by norm_num) (by norm_num)]

end QCSF

namespace QCSF

theorem cex_base1 : baseEntropyAt cexState 1 = Real.logb 2 3 := by
  have h3 : Real.logb 2 ((1:ℝ)/3) = -Real.logb 2 3 := by
    rw [one_div, Real.logb_inv]
  simp only [baseEntropyAt, pCorrMarginal, hCorrect, hIncorrect, cex_prior, cex_psi]
  norm_num [epsGuard, entTerm, h3]
  ring

theorem cex_base3_lb : (666/1000:ℝ) ≤ baseEntropyAt cexState 3 := by
  simp only [baseEntropyAt, pCorrMarginal, hCorrect, hIncorrect, cex_prior, cex_psi]
  norm_num [epsGuard, entTerm]
  nlinarith [entropy_term_nonneg (999/1001) (by norm_num) (by norm_num),
    entropy_term_nonneg (1/1001) (by norm_num) (by norm_num),
    entropy_term_nonneg (1/1999) (by norm_num) (by norm_num),
    entropy_term_ge_self (999/1999) (by norm_num) (by norm_num)]

theorem cex_base2_ub :
    baseEntropyAt cexState 2 ≤ 8/1000 + (1999/3000) * Real.logb 2 3 := by
  simp only [baseEntropyAt, pCorrMarginal, hCorrect, hIncorrect, cex_prior, cex_psi]
  norm_num [epsGuard, entTerm]
  have hone := entropy_term_near_one (999/1001) (by norm_num) (by norm_num)
  have hsmall : -((1:ℝ)/1001 * Real.logb 2 (1/1001)) ≤ 10/1001 := by
    have h := logb_two_le_of_le_pow 1001 10 (by norm_num) (by norm_num)
    push_cast at h
    rw [show ((1:ℝ)/1001) = (1001:ℝ)⁻¹ from by norm_num, Real.logb_inv]
    have hnn : (0:ℝ) ≤ Real.logb 2 1001 := Real.logb_nonneg (by norm_num) (by norm_num)
    nlinarith [h]
  have hgibbs := entropy3_le_logb (1/1999) (999/1999) (999/1999)
    (by norm_num) (by norm_num) (by norm_num) (by norm_num)
  nlinarith [logb_two_three_lb]

theorem cex_base3_ub :
    baseEntropyAt cexState 3 ≤ 8/1000 + (1999/3000) * Real.logb 2 3 := by
  simp only [baseEntropyAt, pCorrMarginal, hCorrect, hIncorrect, cex_prior, cex_psi]
  norm_num [epsGuard, entTerm]
  have hone := entropy_term_near_one (999/1001) (by norm_num) (by norm_num)
  have hsmall : -((1:ℝ)/1001 * Real.logb 2 (1/1001)) ≤ 10/1001 := by
    have h := logb_two_le_of_le_pow 1001 10 (by norm_num) (by norm_num)
    push_cast at h
    rw [show ((1:ℝ)/1001) = (1001:ℝ)⁻¹ from by norm_num, Real.logb_inv]
    have hnn : (0:ℝ) ≤ Real.logb 2 1001 := Real.logb_nonneg (by norm_num) (by norm_num)
    nlinarith [h]
  have hgibbs := entropy3_le_logb (1/1999) (999/1999) (999/1999)
    (by norm_num) (by norm_num) (by norm_num) (by norm_num)
  nlinarith [logb_two_three_lb]

end QCSF

namespace QCSF

theorem cex_freqCounts : cexState.freqCounts = [] := rfl

theorem cex_diversityPenalty (f : ℝ) : diversityPenalty cexState f = 1 := by
  simp [diversityPenalty, cex_freqCounts, freqCountOf]

theorem getBand_four : getBand 4 = some ((2:ℝ), 6, 10) := by
  unfold getBand FREQ_BANDS
  rw [List.find?_cons_of_neg _ (by
    simp only [decide_eq_false_iff_not]
    norm_num)]
  rw [List.find?_cons_of_pos _ (by
    simp only [decide_eq_true_eq]
    norm_num)]

theorem getBand_sixty : getBand 60 = none := by
  unfold getBand FREQ_BANDS
  rw [List.find?_cons_of_neg _ (by
    simp only [decide_eq_false_iff_not]
    norm_num)]
  rw [List.find?_cons_of_neg _ (by
    simp only [decide_eq_false_iff_not]
    norm_num)]
  rw [List.find?_cons_of_neg _ (by
    simp only [decide_eq_false_iff_not]
    norm_num)]
  rw [List.find?_cons_of_neg _ (by
    simp only [decide_eq_false_iff_not]
    norm_num)]
  rfl

theorem cex_coverageBoost_four : coverageBoost cexState 4 = 3 := by
  simp [coverageBoost, getBand_four, cex_freqCounts, bandTrialCount]

theorem cex_coverageBoost_sixty : coverageBoost cexState 60 = 1 := by
  simp [coverageBoost, getBand_sixty]

theorem freqWeight_four : freqWeight 4 = 5/2 := by
  simp [freqWeight, sub_self, Real.exp_zero]
  norm_num

theorem logb_sixty_sub_four : Real.logb 10 60 - Real.logb 10 4 = Real.logb 10 15 := by
  have h := Real.logb_div (b := 10) (x := (60:ℝ)) (y := (4:ℝ)) (by norm_num) (by norm_num)
  rw [show (60:ℝ)/4 = 15 by norm_num] at h
  linarith

theorem freqWeight_sixty_bounds : 1 ≤ freqWeight 60 ∧ freqWeight 60 ≤ 5/4 := by
  have hL := logb_ten_fifteen_bounds
  unfold freqWeight
  rw [logb_sixty_sub_four]
  constructor
  · nlinarith [Real.exp_pos (-(1/2) * (Real.logb 10 15 / 0.55) ^ 2)]
  · have hL2 : (1.3431:ℝ) ≤ (Real.logb 10 15) ^ 2 := by
      nlinarith [hL.1, sq_nonneg (Real.logb 10 15 - 1.161)]
    have ht : (2.22:ℝ) ≤ (1/2) * (Real.logb 10 15 / 0.55) ^ 2 := by
      rw [div_pow]
      norm_num
      linarith
    have htnn : (0:ℝ) ≤ (1/2) * (Real.logb 10 15 / 0.55) ^ 2 := by positivity
    have hpow := pow8_le_exp ((1/2) * (Real.logb 10 15 / 0.55) ^ 2) htnn
    have hu : (1.2775:ℝ) ≤ 1 + ((1/2) * (Real.logb 10 15 / 0.55) ^ 2)/8 := by nlinarith
    have hu2 : (1.632:ℝ) ≤ (1 + ((1/2) * (Real.logb 10 15 / 0.55) ^ 2)/8) ^ 2 := by
      nlinarith
    have hu4 : (2.663:ℝ) ≤ (1 + ((1/2) * (Real.logb 10 15 / 0.55) ^ 2)/8) ^ 4 := by
      nlinarith
    have hu8 : (6:ℝ) ≤ (1 + ((1/2) * (Real.logb 10 15 / 0.55) ^ 2)/8) ^ 8 := by
      nlinarith
    have hexp : (6:ℝ) ≤ Real.exp ((1/2) * (Real.logb 10 15 / 0.55) ^ 2) := by linarith
    have hneg : Real.exp (-((1/2) * (Real.logb 10 15 / 0.55) ^ 2)) ≤ 1/6 := by
      rw [Real.exp_neg]
      rw [inv_le (by positivity) (by norm_num)]
      linarith
    have harg : -(1/2) * (Real.logb 10 15 / 0.55) ^ 2 =
        -((1/2) * (Real.logb 10 15 / 0.55) ^ 2) := by ring
    rw [harg]
    nlinarith [hneg, Real.exp_pos (-((1/2) * (Real.logb 10 15 / 0.55) ^ 2))]

theorem boundaryWeight_bounds (st : EngineState ℝ) (stim : ℝ × ℝ) :
    0 ≤ boundaryWeight st stim ∧ boundaryWeight st stim ≤ 1 := by
  unfold boundaryWeight
  constructor
  · exact le_of_lt (Real.exp_pos _)
  · apply Real.exp_le_one_iff.2
    have hsq : (0:ℝ) ≤ ((stim.2 - -evaluateCSF stim.1 (getExpectedEstimate st)) / st.sigmaB) ^ 2 :=
      sq_nonneg _
    nlinarith

end QCSF

namespace QCSF

theorem cex_ee0_ub : eeAt cexState 0 ≤ 16/75 := by
  have hbw := boundaryWeight_bounds cexState ((4:ℝ), 0.12)
  have hlog := logb_two_three_ub
  have hlogpos : (0:ℝ) ≤ Real.logb 2 3 := Real.logb_nonneg (by norm_num) (by norm_num)
  simp only [eeAt, cex_stimGrid, List.getD_cons_zero]
  rw [cex_base0, cex_diversityPenalty, freqWeight_four, cex_coverageBoost_four]
  have hden : (0:ℝ) < (1 + boundaryWeight cexState (4, 0.12)) * (5/2) * 3 := by
    nlinarith [hbw.1]
  rw [div_le_iff hden]
  nlinarith [hbw.1]

theorem cex_ee1_ub : eeAt cexState 1 ≤ 16/75 := by
  have hbw := boundaryWeight_bounds cexState ((4:ℝ), 0.142)
  have hlog := logb_two_three_ub
  have hlogpos : (0:ℝ) ≤ Real.logb 2 3 := Real.logb_nonneg (by norm_num) (by norm_num)
  simp only [eeAt, cex_stimGrid, List.getD_cons_zero, List.getD_cons_succ]
  rw [cex_base1, cex_diversityPenalty, freqWeight_four, cex_coverageBoost_four]
  have hden : (0:ℝ) < (1 + boundaryWeight cexState (4, 0.142)) * (5/2) * 3 := by
    nlinarith [hbw.1]
  rw [div_le_iff hden]
  nlinarith [hbw.1]

theorem cex_ee2_lb : (666/2500:ℝ) ≤ eeAt cexState 2 := by
  have hbw := boundaryWeight_bounds cexState ((60:ℝ), 0.12)
  have hfw := freqWeight_sixty_bounds
  have hE := cex_base2_lb
  simp only [eeAt, cex_stimGrid, List.getD_cons_zero, List.getD_cons_succ]
  rw [cex_diversityPenalty, cex_coverageBoost_sixty]
  have hden : (0:ℝ) < (1 + boundaryWeight cexState (60, 0.12)) * freqWeight 60 * 1 := by
    nlinarith [hbw.1, hfw.1]
  rw [le_div_iff hden]
  nlinarith [hbw.1, hbw.2, hfw.1, hfw.2, hE]

theorem cex_ee3_lb : (666/2500:ℝ) ≤ eeAt cexState 3 := by
  have hbw := boundaryWeight_bounds cexState ((60:ℝ), 0.142)
  have hfw := freqWeight_sixty_bounds
  have hE := cex_base3_lb
  simp only [eeAt, cex_stimGrid, List.getD_cons_zero, List.getD_cons_succ]
  rw [cex_diversityPenalty, cex_coverageBoost_sixty]
  have hden : (0:ℝ) < (1 + boundaryWeight cexState (60, 0.142)) * freqWeight 60 * 1 := by
    nlinarith [hbw.1, hfw.1]
  rw [le_div_iff hden]
  nlinarith [hbw.1, hbw.2, hfw.1, hfw.2, hE]

end QCSF

namespace QCSF

theorem cex_eeList :
    eeList cexState =
      [eeAt cexState 0, eeAt cexState 1, eeAt cexState 2, eeAt cexState 3] := rfl

theorem cex_bestIndex_cases :
    bestIndex (eeList cexState) = 0 ∨ bestIndex (eeList cexState) = 1 := by
  have g0 : ∀ a b c d : ℝ, ([a, b, c, d] : List ℝ).getD 0 0 = a := fun _ _ _ _ => rfl
  have g1 : ∀ a b c d : ℝ, ([a, b, c, d] : List ℝ).getD 1 0 = b := fun _ _ _ _ => rfl
  have g2 : ∀ a b c d : ℝ, ([a, b, c, d] : List ℝ).getD 2 0 = c := fun _ _ _ _ => rfl
  have g3 : ∀ a b c d : ℝ, ([a, b, c, d] : List ℝ).getD 3 0 = d := fun _ _ _ _ => rfl
  have h20 : ¬(eeAt cexState 2 < eeAt cexState 0) :=
    not_lt.2 (le_trans (by linarith [cex_ee0_ub] : eeAt cexState 0 ≤ 666/2500) cex_ee2_lb)
  have h21 : ¬(eeAt cexState 2 < eeAt cexState 1) :=
    not_lt.2 (le_trans (by linarith [cex_ee1_ub] : eeAt cexState 1 ≤ 666/2500) cex_ee2_lb)
  have h30 : ¬(eeAt cexState 3 < eeAt cexState 0) :=
    not_lt.2 (le_trans (by linarith [cex_ee0_ub] : eeAt cexState 0 ≤ 666/2500) cex_ee3_lb)
  have h31 : ¬(eeAt cexState 3 < eeAt cexState 1) :=
    not_lt.2 (le_trans (by linarith [cex_ee1_ub] : eeAt cexState 1 ≤ 666/2500) cex_ee3_lb)
  rw [cex_eeList]
  unfold bestIndex
  rw [show ([eeAt cexState 0, eeAt cexState 1, eeAt cexState 2,
      eeAt cexState 3] : List ℝ).length = 4 from rfl,
    show List.range 4 = [0, 1, 2, 3] from rfl]
  simp only [List.foldl_cons, List.foldl_nil]
  simp only [g0, g1, g2, g3]
  rw [if_neg (lt_irrefl (eeAt cexState 0))]
  simp only [g0]
  by_cases h01 : eeAt cexState 1 < eeAt cexState 0
  · rw [if_pos h01]
    simp only [g1]
    rw [if_neg h21]
    simp only [g1]
    rw [if_neg h31]
    exact Or.inr rfl
  · rw [if_neg h01]
    simp only [g0]
    rw [if_neg h20]
    simp only [g0]
    rw [if_neg h30]
    exact Or.inl rfl

/-- Claim **C7** — counterexample: at the engine state reached at construction
under `cexConfig` (a reachable state: no trials have occurred), the
stimulus chosen by `selectStimulus` — the argmin of the weighted scores —
has base expected entropy `log2 3`, strictly above the arithmetic mean of
the base expected entropies of the four candidate stimuli, because the
frequency, coverage and boundary weights steer the choice away from the
informative 60 cpd stimuli.  The claim that the chosen stimulus's base
entropy never exceeds the average is therefore false. -/
theorem c7_counterexample :
    ((List.range cexState.stimGrid.length).map (baseEntropyAt cexState)).sum /
        cexState.stimGrid.length <
      baseEntropyAt cexState (selectStimulus cexState).stimIndex := by
  have hsel : (selectStimulus cexState).stimIndex = bestIndex (eeList cexState) := rfl
  rw [hsel]
  have hchosen : baseEntropyAt cexState (bestIndex (eeList cexState)) = Real.logb 2 3 := by
    rcases cex_bestIndex_cases with h | h
    · rw [h, cex_base0]
    · rw [h, cex_base1]
  rw [hchosen,
    show cexState.stimGrid.length = 4 from rfl,
    show List.range 4 = [0, 1, 2, 3] from rfl]
  simp only [List.map_cons, List.map_nil, List.sum_cons, List.sum_nil]
  rw [cex_base0, cex_base1]
  have h2u := cex_base2_ub
  have h3u := cex_base3_ub
  have h2l := cex_base2_lb
  have h3l := cex_base3_lb
  have hlog := logb_two_three_lb
  push_cast
  nlinarith

end QCSF

namespace QCSF

/-- Auxiliary: the argmin scan value is a lower bound for the start value
and for every scanned index. -/
theorem argmin_fold_le (l : List ℝ) :
    ∀ (idxs : List ℕ) (b : ℕ),
      l.getD (idxs.foldl
        (fun best s => if l.getD s 0 < l.getD best 0 then s else best) b) 0 ≤
          l.getD b 0 ∧
        ∀ s ∈ idxs,
          l.getD (idxs.foldl
            (fun best s => if l.getD s 0 < l.getD best 0 then s else best) b) 0 ≤
            l.getD s 0 := by
  intro idxs
  induction idxs with
  | nil => intro b; exact ⟨le_refl _, by simp⟩
  | cons i rest ih =>
    intro b
    simp only [List.foldl_cons]
    by_cases hc : l.getD i 0 < l.getD b 0
    · rw [if_pos hc]
      obtain ⟨h1, h2⟩ := ih i
      refine ⟨le_trans h1 (le_of_lt hc), ?_⟩
      intro s hs
      rcases List.mem_cons.1 hs with rfl | hs
      · exact h1
      · exact h2 s hs
    · rw [if_neg hc]
      obtain ⟨h1, h2⟩ := ih b
      refine ⟨h1, ?_⟩
      intro s hs
      rcases List.mem_cons.1 hs with rfl | hs
      · exact le_trans h1 (not_lt.1 hc)
      · exact h2 s hs

/-- Auxiliary: the scanned minimum is below every entry of the list. -/
theorem bestIndex_min (l : List ℝ) :
    ∀ s ∈ List.range l.length, l.getD (bestIndex l) 0 ≤ l.getD s 0 :=
  (argmin_fold_le l (List.range l.length) 0).2

/-- Auxiliary: summing `getD` over `range length` recovers the list sum. -/
theorem sum_range_getD (l : List ℝ) :
    ((List.range l.length).map (fun s => l.getD s 0)).sum = l.sum := by
  induction l with
  | nil => simp
  | cons a t ih =>
    rw [List.length_cons, List.range_succ_eq_map, List.map_cons, List.map_map]
    have hcomp : ((fun s => (a :: t).getD s 0) ∘ Nat.succ) = fun s => t.getD s 0 := by
      funext s
      simp [Function.comp, List.getD_cons_succ]
    rw [List.sum_cons, List.getD_cons_zero, hcomp, ih]
    rw [List.sum_cons]

/-- Auxiliary: a uniform lower bound on mapped values bounds the sum. -/
theorem sum_map_ge (l : List ℝ) (v : ℝ) :
    ∀ idxs : List ℕ, (∀ s ∈ idxs, v ≤ l.getD s 0) →
      v * idxs.length ≤ (idxs.map (fun s => l.getD s 0)).sum := by
  intro idxs
  induction idxs with
  | nil => intro _; simp
  | cons i rest ih =>
    intro hall
    simp only [List.map_cons, List.sum_cons, List.length_cons]
    have h1 := hall i (List.mem_cons_self i rest)
    have h2 := ih fun s hs => hall s (List.mem_cons_of_mem i hs)
    push_cast
    nlinarith [h1, h2]

/-- Claim **C7** (amended) — what selection actually guarantees: the chosen
stimulus minimises the weighted score
`ee = baseEntropy * diversityPenalty / ((1+boundaryWeight) * freqWeight * coverageBoost)`,
so its weighted score is never higher than the arithmetic mean of the
weighted scores of all candidate stimuli.  (The counterexample shows the
unweighted base entropy does not satisfy this.) -/
theorem c7_amended (st : EngineState ℝ) (h : st.stimGrid ≠ []) :
    (eeList st).getD (selectStimulus st).stimIndex 0 ≤
      (eeList st).sum / (eeList st).length := by
  have hsel : (selectStimulus st).stimIndex = bestIndex (eeList st) := rfl
  rw [hsel]
  have hlen : 0 < (eeList st).length := by
    unfold eeList
    rw [List.length_map, List.length_range]
    exact List.length_pos.2 h
  have hmin := bestIndex_min (eeList st)
  have hge := sum_map_ge (eeList st) ((eeList st).getD (bestIndex (eeList st)) 0)
    (List.range (eeList st).length) hmin
  rw [sum_range_getD, List.length_range] at hge
  rw [le_div_iff (by exact_mod_cast hlen)]
  exact hge

/-- Witness for the amended C7 at the concrete constructed state. -/
theorem c7_amended_witness :
    unitState.stimGrid ≠ [] ∧
      (eeList unitState).getD (selectStimulus unitState).stimIndex 0 ≤
        (eeList unitState).sum / (eeList unitState).length := by
  have h : unitState.stimGrid ≠ [] := by
    rw [show unitState.stimGrid = [((4:ℝ), 0)] from rfl]
    simp
  exact ⟨h, c7_amended unitState h⟩

end QCSF
